import Mathlib

/-!
Verification of the journallm-web hierarchical summarization core.

This file gives a shallow embedding, in Lean 4, of the pure computational
content of the repository's tiering / hashing / caching / summarization
pipeline, and proves (or refutes) the frozen specification claims about it.

Modelling conventions:
- JavaScript `Date` values are modelled as `Int` millisecond timestamps with
  the server clock in UTC, so `setDate(getDate() - n)` is subtraction of
  `n * DAY_MS` and the calendar components come from the standard civil
  calendar algorithm on the day number.
- JavaScript numbers used as counts or token totals are modelled as `Nat`;
  dollar costs are modelled as `ℚ` (the double-precision computations in
  scope stay well inside the exactly-representable range, and the claims
  settled here do not depend on rounding at the last bit).
- Stateful collaborators (the Drive store, the Anthropic client) are passed
  explicitly: the store as a value, the model client as an oracle function
  from (batch index, attempt) to an `Except` outcome.
- JavaScript `Array.prototype.sort` (stable since ES2019) is modelled by
  `List.insertionSort`, which is stable for the comparators in scope.
-/

namespace JournalLM

/-- Milliseconds in one day, as in the JS date arithmetic. -/
def DAY_MS : Int := 86400000

/-- Decimal digit characters produced by number rendering. -/
def natStrAux : Nat → Nat → List Char
  | 0, _ => []
  | fuel + 1, n =>
    if n < 10 then [Nat.digitChar n]
    else natStrAux fuel (n / 10) ++ [Nat.digitChar (n % 10)]

/-- Decimal rendering of a natural number, as JS `String(n)` for such values. -/
def natStr (n : Nat) : String := String.mk (natStrAux (n + 1) n)

/-- Decimal rendering of an integer, as JS string interpolation of a number. -/
def intStr (i : Int) : String :=
  if i < 0 then "-" ++ natStr (-i).toNat else natStr i.toNat

/-- JS `String.prototype.padStart(w, "0")`. -/
def padZero (w : Nat) (s : String) : String :=
  String.mk (List.replicate (w - s.length) '0') ++ s

/-- Day number of a millisecond timestamp (floor division, as ECMA `Day(t)`). -/
def daysOfMs (t : Int) : Int := t.ediv DAY_MS

/-- Millisecond of day of a timestamp (nonnegative remainder). -/
def msOfDay (t : Int) : Int := t.emod DAY_MS

/-- Civil date (year, month 1-12, day 1-31) of a day number since the Unix
epoch, by the standard proleptic-Gregorian algorithm (as used by ECMA date
component accessors in the UTC model). -/
def civilFromDays (z0 : Int) : Int × Nat × Nat :=
  let z := z0 + 719468
  let era := z.ediv 146097
  let doe := (z - era * 146097).toNat
  let yoe := (doe - doe / 1460 + doe / 36524 - doe / 146096) / 365
  let y := (yoe : Int) + era * 400
  let doy := doe - (365 * yoe + yoe / 4 - yoe / 100)
  let mp := (5 * doy + 2) / 153
  let d := doy - (153 * mp + 2) / 5 + 1
  let m := if mp < 10 then mp + 3 else mp - 9
  (if m ≤ 2 then y + 1 else y, m, d)

/-- Day number of a civil date (inverse direction of `civilFromDays`),
used to model `new Date(year, 0, 1)` in the UTC model. -/
def daysFromCivil (y0 : Int) (m : Nat) (d : Nat) : Int :=
  let y := if m ≤ 2 then y0 - 1 else y0
  let era := y.ediv 400
  let yoe := (y - era * 400).toNat
  let doy := (153 * (if m > 2 then m - 3 else m + 9) + 2) / 5 + d - 1
  let doe := yoe * 365 + yoe / 4 - yoe / 100 + doy
  era * 146097 + (doe : Int) - 719468

/-- JS `Date.prototype.getFullYear` in the UTC model. -/
def getFullYear (t : Int) : Int := (civilFromDays (daysOfMs t)).1

/-- JS `Date.prototype.getMonth` (0-based month) in the UTC model. -/
def getMonth (t : Int) : Nat := (civilFromDays (daysOfMs t)).2.1 - 1

/-- JS `Date.prototype.getDate` (day of month) in the UTC model. -/
def getDate (t : Int) : Nat := (civilFromDays (daysOfMs t)).2.2

/-- JS `Date.prototype.getDay` (weekday, 0 = Sunday); day 0 of the epoch was
a Thursday. -/
def getDayOfWeek (t : Int) : Int := (daysOfMs t + 4).emod 7

/-- Year field of `Date.prototype.toISOString`: four padded digits for years
0-9999, otherwise the expanded six-digit signed form. -/
def isoYearStr (y : Int) : String :=
  if 0 ≤ y ∧ y ≤ 9999 then padZero 4 (natStr y.toNat)
  else if y < 0 then "-" ++ padZero 6 (natStr (-y).toNat)
  else "+" ++ padZero 6 (natStr y.toNat)

/-- JS `Date.prototype.toISOString` (always UTC). -/
def msToIso (t : Int) : String :=
  let c := civilFromDays (daysOfMs t)
  let ms := (msOfDay t).toNat
  isoYearStr c.1 ++ "-" ++ padZero 2 (natStr c.2.1) ++ "-" ++ padZero 2 (natStr c.2.2) ++
    "T" ++ padZero 2 (natStr (ms / 3600000)) ++ ":" ++ padZero 2 (natStr (ms / 60000 % 60)) ++
    ":" ++ padZero 2 (natStr (ms / 1000 % 60)) ++ "." ++ padZero 3 (natStr (ms % 1000)) ++ "Z"

/-- Date part of the ISO rendering, as `toISOString().split("T")[0]`. -/
def isoDateOnly (t : Int) : String := ((msToIso t).splitOn "T").headD ""

/-- Short month names of `toLocaleDateString("en-US", { month: "short" })`. -/
def monthShortNames : List String :=
  ["Jan", "Feb", "Mar", "Apr", "May", "Jun", "Jul", "Aug", "Sep", "Oct", "Nov", "Dec"]

/-- Long month names of `toLocaleDateString("en-US", { month: "long" })`. -/
def monthLongNames : List String :=
  ["January", "February", "March", "April", "May", "June", "July", "August",
   "September", "October", "November", "December"]

/-! ### src/lib/journal-tiers.ts -/

/-- Entry record of `journal-tiers.ts` (`interface ParsedEntry`); the `date`
is a millisecond timestamp. -/
structure ParsedEntry where
  date : Int
  text : String
  journal : Option String := none
  location : Option String := none
deriving Repr, DecidableEq

/-- Statistics block of `TieredJournal`. -/
structure TierStats where
  totalEntries : Nat
  tier1Entries : Nat
  tier2Entries : Nat
  tier3Entries : Nat
  estimatedTokens : Nat
deriving Repr, DecidableEq

/-- Result record of `partitionIntoTiers` (`interface TieredJournal`). -/
structure TieredJournal where
  tier1 : List ParsedEntry
  tier2Batches : List (List ParsedEntry)
  tier3Batches : List (List ParsedEntry)
  stats : TierStats
deriving Repr, DecidableEq

/-- Constant `TIER1_DAYS` of `journal-tiers.ts`. -/
def TIER1_DAYS : Int := 14

/-- Constant `TIER2_DAYS` of `journal-tiers.ts`. -/
def TIER2_DAYS : Int := 90

/-- Cutoff `new Date(now); setDate(getDate() - TIER1_DAYS)`: fourteen days
before `now` in the UTC model. -/
def tier1Cutoff (now : Int) : Int := now - TIER1_DAYS * DAY_MS

/-- Cutoff ninety days before `now` in the UTC model. -/
def tier2Cutoff (now : Int) : Int := now - TIER2_DAYS * DAY_MS

/-- The classification loop of `partitionIntoTiers`: each entry is pushed to
tier 1 if `date >= tier1Cutoff`, else tier 2 if `date >= tier2Cutoff`, else
tier 3, preserving input order in each tier. -/
def partitionLoop (t1c t2c : Int) :
    List ParsedEntry → List ParsedEntry × List ParsedEntry × List ParsedEntry
  | [] => ([], [], [])
  | e :: rest =>
    let r := partitionLoop t1c t2c rest
    if t1c ≤ e.date then (e :: r.1, r.2.1, r.2.2)
    else if t2c ≤ e.date then (r.1, e :: r.2.1, r.2.2)
    else (r.1, r.2.1, e :: r.2.2)

/-- One step of the `Map`-based grouping: append the entry to its key's
group if the key is present (JS `Map` keeps insertion order and appends to
the existing array), else add a new group at the end. -/
def insertGrouped (key : String) (e : ParsedEntry) :
    List (String × List ParsedEntry) → List (String × List ParsedEntry)
  | [] => [(key, [e])]
  | (k, es) :: rest =>
    if k = key then (k, es ++ [e]) :: rest
    else (k, es) :: insertGrouped key e rest

/-- Build the first-seen-ordered groups of a list of entries under a key
function, as the `Map` loops of `groupByWeek` / `groupByMonth` do. -/
def groupEntries (keyOf : ParsedEntry → String) (entries : List ParsedEntry) :
    List (String × List ParsedEntry) :=
  entries.foldl (fun acc e => insertGrouped (keyOf e) e acc) []

/-- Key comparison `([a], [b]) => a.localeCompare(b)` used to sort groups;
for the ASCII keys produced here locale collation agrees with codepoint
order. -/
def keyLe (a b : String × List ParsedEntry) : Prop := a.1 ≤ b.1

instance : DecidableRel keyLe := fun a b => inferInstanceAs (Decidable (a.1 ≤ b.1))

/-- Sorted groups of entries under a key function: Map insertion order, then
`Array.prototype.sort` (stable) by key, then the values. -/
def groupedBatches (keyOf : ParsedEntry → String) (entries : List ParsedEntry) :
    List (List ParsedEntry) :=
  ((groupEntries keyOf entries).insertionSort keyLe).map Prod.snd

/-- Function `getWeekKey` of `journal-tiers.ts`: the custom day-of-year-based
week key `YYYY-Www` (deliberately not ISO-8601 week numbering). -/
def getWeekKey (t : Int) : String :=
  let year := getFullYear t
  let firstDayOfYear := daysFromCivil year 1 1 * DAY_MS
  let dayOfYear := (t - firstDayOfYear).ediv DAY_MS + 1
  let weekNumber := (dayOfYear + getDayOfWeek firstDayOfYear + 6).ediv 7
  intStr year ++ "-W" ++ padZero 2 (intStr weekNumber)

/-- Month key `YYYY-MM` (`getFullYear` and 1-based padded month). -/
def monthKey (t : Int) : String :=
  intStr (getFullYear t) ++ "-" ++ padZero 2 (natStr (getMonth t + 1))

/-- Function `groupByWeek` of `journal-tiers.ts`. -/
def groupByWeek (entries : List ParsedEntry) : List (List ParsedEntry) :=
  groupedBatches (fun e => getWeekKey e.date) entries

/-- Function `groupByMonth` of `journal-tiers.ts`. -/
def groupByMonth (entries : List ParsedEntry) : List (List ParsedEntry) :=
  groupedBatches (fun e => monthKey e.date) entries

/-- Function `estimateTokens` of `journal-tiers.ts`: `ceil(totalChars / 4)`. -/
def estimateTokens (entries : List ParsedEntry) : Nat :=
  ((entries.foldl (fun sum e => sum + e.text.length) 0) + 3) / 4

/-- Function `partitionIntoTiers` of `journal-tiers.ts`, with the current
time injected. -/
def partitionIntoTiers (entries : List ParsedEntry) (now : Int) : TieredJournal :=
  let p := partitionLoop (tier1Cutoff now) (tier2Cutoff now) entries
  let tier2Batches := groupByWeek p.2.1
  let tier3Batches := groupByMonth p.2.2
  let estimatedTokens :=
    estimateTokens p.1 +
      tier2Batches.foldl (fun sum batch => sum + estimateTokens batch) 0 +
      tier3Batches.foldl (fun sum batch => sum + estimateTokens batch) 0
  { tier1 := p.1
    tier2Batches := tier2Batches
    tier3Batches := tier3Batches
    stats :=
      { totalEntries := entries.length
        tier1Entries := p.1.length
        tier2Entries := p.2.1.length
        tier3Entries := p.2.2.length
        estimatedTokens := estimatedTokens } }

/-- Function `entriesToXml` of `journal-tiers.ts`. -/
def entriesToXml (entries : List ParsedEntry) : String :=
  String.intercalate "\n\n" (entries.map fun e =>
    let dateStr := isoDateOnly e.date
    let withJournal :=
      match e.journal with
      | some j => "\n  <journal>" ++ j ++ "</journal>"
      | none => ""
    let withLocation :=
      match e.location with
      | some l => "\n  <location>" ++ l ++ "</location>"
      | none => ""
    "<entry date=\"" ++ dateStr ++ "\">" ++ withJournal ++ withLocation ++
      "\n  <text>" ++ e.text ++ "</text>" ++ "\n</entry>")

/-- Function `getBatchDateRange` of `journal-tiers.ts`; throws on an empty
batch, modelled by `Option`. -/
def getBatchDateRange (entries : List ParsedEntry) : Option (Int × Int) :=
  match entries with
  | [] => none
  | e :: rest =>
    some (rest.foldl (fun acc x => (min acc.1 x.date, max acc.2 x.date)) (e.date, e.date))

/-- Kind tag `"weekly" | "monthly"` of the summarization batches. -/
inductive BatchType where
  | weekly
  | monthly
deriving Repr, DecidableEq

/-- Function `formatBatchPeriod` of `journal-tiers.ts` (en-US locale dates). -/
def formatBatchPeriod (entries : List ParsedEntry) (type : BatchType) : Option String :=
  (getBatchDateRange entries).map fun r =>
    let start := r.1
    match type with
    | .weekly =>
        "Week of " ++ (monthShortNames.getD (getMonth start) "") ++ " " ++
          natStr (getDate start) ++ ", " ++ intStr (getFullYear start)
    | .monthly =>
        (monthLongNames.getD (getMonth start) "") ++ " " ++ intStr (getFullYear start)

/-- Function `getBatchPeriodKey` of `journal-tiers.ts`. -/
def getBatchPeriodKey (entries : List ParsedEntry) (type : BatchType) : Option String :=
  (getBatchDateRange entries).map fun r =>
    match type with
    | .weekly => getWeekKey r.1
    | .monthly => monthKey r.1

/-! ### Conservation lemmas for the partition and the grouping -/

theorem perm_flatten_of_perm {α : Type _} {l₁ l₂ : List (List α)} (h : l₁.Perm l₂) :
    l₁.flatten.Perm l₂.flatten := by
  induction h with
  | nil => exact List.Perm.refl _
  | cons x _ ih => exact ih.append_left x
  | swap x y l =>
      simp only [List.flatten_cons, ← List.append_assoc]
      exact (@List.perm_append_comm _ y x).append_right _
  | trans _ _ ih₁ ih₂ => exact ih₁.trans ih₂

theorem partitionLoop_perm (t1c t2c : Int) (entries : List ParsedEntry) :
    ((partitionLoop t1c t2c entries).1 ++ (partitionLoop t1c t2c entries).2.1 ++
      (partitionLoop t1c t2c entries).2.2).Perm entries := by
  induction entries with
  | nil => simp [partitionLoop]
  | cons e rest ih =>
      simp only [partitionLoop]
      by_cases h1 : t1c ≤ e.date
      · simpa [h1] using ih.cons e
      · by_cases h2 : t2c ≤ e.date
        · simp only [h1, h2, if_true, if_false]
          exact (List.perm_middle.append_right _).trans (ih.cons e)
        · simp only [h1, h2, if_false]
          exact List.perm_middle.trans (ih.cons e)

theorem partitionLoop_mem_tier2 (t1c t2c : Int) (entries : List ParsedEntry)
    (e : ParsedEntry) (hmem : e ∈ entries) (h2 : t2c ≤ e.date) (h1 : ¬t1c ≤ e.date) :
    e ∈ (partitionLoop t1c t2c entries).2.1 := by
  revert hmem
  induction entries with
  | nil => intro hmem; cases hmem
  | cons x rest ih =>
      intro hmem
      rcases List.mem_cons.mp hmem with rfl | hmem'
      · simp [partitionLoop, h1, h2]
      · have hrec := ih hmem'
        by_cases hx1 : t1c ≤ x.date
        · simpa [partitionLoop, hx1] using hrec
        · by_cases hx2 : t2c ≤ x.date
          · simp [partitionLoop, hx1, hx2, hrec]
          · simpa [partitionLoop, hx1, hx2] using hrec

theorem partitionLoop_tier3_lt (t1c t2c : Int) (entries : List ParsedEntry)
    (e : ParsedEntry) (hmem : e ∈ (partitionLoop t1c t2c entries).2.2) :
    e.date < t2c := by
  revert hmem
  induction entries with
  | nil => intro hmem; simp [partitionLoop] at hmem
  | cons x rest ih =>
      intro hmem
      by_cases hx1 : t1c ≤ x.date
      · exact ih (by simpa [partitionLoop, hx1] using hmem)
      · by_cases hx2 : t2c ≤ x.date
        · exact ih (by simpa [partitionLoop, hx1, hx2] using hmem)
        · simp only [partitionLoop, hx1, hx2, if_false, List.mem_cons] at hmem
          rcases hmem with rfl | hmem
          · omega
          · exact ih hmem

theorem insertGrouped_flatten_perm (key : String) (e : ParsedEntry)
    (g : List (String × List ParsedEntry)) :
    (((insertGrouped key e g).map Prod.snd).flatten).Perm
      ((g.map Prod.snd).flatten ++ [e]) := by
  induction g with
  | nil => simp [insertGrouped]
  | cons p rest ih =>
      obtain ⟨k, es⟩ := p
      by_cases hk : k = key
      · simp only [insertGrouped, hk, if_true, List.map_cons, List.flatten_cons]
        simp only [List.append_assoc]
        exact (List.Perm.refl es).append (List.perm_append_comm)
      · simp only [insertGrouped, hk, if_false, List.map_cons, List.flatten_cons]
        simpa [List.append_assoc] using ih.append_left es

theorem groupEntries_foldl_flatten_perm (keyOf : ParsedEntry → String)
    (entries : List ParsedEntry) :
    ∀ acc : List (String × List ParsedEntry),
      (((entries.foldl (fun acc e => insertGrouped (keyOf e) e acc) acc).map
        Prod.snd).flatten).Perm ((acc.map Prod.snd).flatten ++ entries) := by
  induction entries with
  | nil => intro acc; simp
  | cons e rest ih =>
      intro acc
      simp only [List.foldl_cons]
      refine (ih (insertGrouped (keyOf e) e acc)).trans ?_
      have h := (insertGrouped_flatten_perm (keyOf e) e acc).append_right rest
      refine h.trans ?_
      simp only [List.append_assoc, List.singleton_append]
      exact List.Perm.refl _

theorem groupedBatches_flatten_perm (keyOf : ParsedEntry → String)
    (entries : List ParsedEntry) :
    ((groupedBatches keyOf entries).flatten).Perm entries := by
  have hsort : ((groupEntries keyOf entries).insertionSort keyLe).Perm
      (groupEntries keyOf entries) := List.perm_insertionSort _ _
  have h1 : ((groupedBatches keyOf entries).flatten).Perm
      (((groupEntries keyOf entries).map Prod.snd).flatten) :=
    perm_flatten_of_perm (hsort.map Prod.snd)
  refine h1.trans ?_
  simpa [groupEntries] using groupEntries_foldl_flatten_perm keyOf entries []

/-- Claim C10 (conservation of entries by the tier partition): every input
entry ends up in exactly one of tier 1, a tier-2 batch, or a tier-3 batch
(stated as a permutation between the input list and the concatenation of
tier 1 with the flattened batches, which rules out both drops and
duplications at the multiset level), and the returned stats satisfy
tier1Entries + tier2Entries + tier3Entries = totalEntries = input length. -/
theorem partitionIntoTiers_conserves (entries : List ParsedEntry) (now : Int) :
    (((partitionIntoTiers entries now).tier1 ++
        (partitionIntoTiers entries now).tier2Batches.flatten ++
        (partitionIntoTiers entries now).tier3Batches.flatten).Perm entries) ∧
    (partitionIntoTiers entries now).stats.tier1Entries +
        (partitionIntoTiers entries now).stats.tier2Entries +
        (partitionIntoTiers entries now).stats.tier3Entries =
      (partitionIntoTiers entries now).stats.totalEntries ∧
    (partitionIntoTiers entries now).stats.totalEntries = entries.length := by
  have hperm := partitionLoop_perm (tier1Cutoff now) (tier2Cutoff now) entries
  have h2 : ((groupByWeek
        (partitionLoop (tier1Cutoff now) (tier2Cutoff now) entries).2.1).flatten).Perm
      (partitionLoop (tier1Cutoff now) (tier2Cutoff now) entries).2.1 :=
    groupedBatches_flatten_perm _ _
  have h3 : ((groupByMonth
        (partitionLoop (tier1Cutoff now) (tier2Cutoff now) entries).2.2).flatten).Perm
      (partitionLoop (tier1Cutoff now) (tier2Cutoff now) entries).2.2 :=
    groupedBatches_flatten_perm _ _
  refine ⟨?_, ?_, ?_⟩
  · simp only [partitionIntoTiers]
    exact (((List.Perm.refl _).append h2).append h3).trans hperm
  · have hlen := hperm.length_eq
    simp only [List.length_append] at hlen
    simp only [partitionIntoTiers]
    omega
  · simp [partitionIntoTiers]

/-- Claim C1 (corrected): an entry whose date is on or after the 90-day
cutoff but strictly before the 14-day cutoff — in particular an entry aged
exactly 90 days, whose date equals `now` minus 90 days — is placed in a
tier-2 batch and in no tier-3 batch: the boundary comparison `date >=
cutoff` sends a boundary entry to the newer tier, not the older one. -/
theorem partitionIntoTiers_boundary_tier2 (entries : List ParsedEntry) (now : Int)
    (e : ParsedEntry) (hmem : e ∈ entries) (h2 : tier2Cutoff now ≤ e.date)
    (h1 : e.date < tier1Cutoff now) :
    e ∈ (partitionIntoTiers entries now).tier2Batches.flatten ∧
      e ∉ (partitionIntoTiers entries now).tier3Batches.flatten := by
  constructor
  · have hmem2 := partitionLoop_mem_tier2 (tier1Cutoff now) (tier2Cutoff now) entries e
      hmem h2 (by omega)
    have hperm := groupedBatches_flatten_perm
      (fun e => getWeekKey e.date) (partitionLoop (tier1Cutoff now) (tier2Cutoff now) entries).2.1
    exact (hperm.mem_iff).mpr hmem2
  · intro hmem3
    have hperm := groupedBatches_flatten_perm
      (fun e => monthKey e.date) (partitionLoop (tier1Cutoff now) (tier2Cutoff now) entries).2.2
    have := partitionLoop_tier3_lt (tier1Cutoff now) (tier2Cutoff now) entries e
      ((hperm.mem_iff).mp hmem3)
    omega

/-- Witness for the corrected claim C1, at the exact 90-day boundary: with
`now = 0` the entry dated `-90 * DAY_MS` (age exactly 90 days) lands in a
tier-2 batch and in no tier-3 batch. -/
theorem partitionIntoTiers_boundary_tier2_witness :
    (⟨-7776000000, "entry", none, none⟩ : ParsedEntry) ∈
      (partitionIntoTiers [⟨-7776000000, "entry", none, none⟩] 0).tier2Batches.flatten ∧
    (⟨-7776000000, "entry", none, none⟩ : ParsedEntry) ∉
      (partitionIntoTiers [⟨-7776000000, "entry", none, none⟩] 0).tier3Batches.flatten :=
  partitionIntoTiers_boundary_tier2 [⟨-7776000000, "entry", none, none⟩] 0
    ⟨-7776000000, "entry", none, none⟩ (by simp) (by decide) (by decide)

/-- Counterexample to claim C1 as stated: an entry exactly 90 days old (date
equal to `now` minus 90 days, here `now = 0`) is NOT assigned to tier 3 —
the partition puts it in a tier-2 batch, because the code's comparison
`entry.date >= tier2Cutoff` is inclusive toward the newer tier. -/
theorem partitionIntoTiers_90day_cex :
    (partitionIntoTiers [⟨-7776000000, "entry", none, none⟩] 0).tier3Batches = [] ∧
    (partitionIntoTiers [⟨-7776000000, "entry", none, none⟩] 0).tier2Batches =
      [[⟨-7776000000, "entry", none, none⟩]] := by decide

/-! ### SHA-256 (FIPS 180-4), modelling Node's `createHash("sha256")`

Machine words are `Nat` values kept below `2 ^ 32` by explicit reduction. -/

/-- Modulus of 32-bit words. -/
def M32 : Nat := 4294967296

/-- Right rotation of a 32-bit word. -/
def rotr32 (n x : Nat) : Nat := (x / 2 ^ n + x % 2 ^ n * 2 ^ (32 - n)) % M32

/-- Logical right shift of a 32-bit word. -/
def shr32 (n x : Nat) : Nat := x / 2 ^ n

/-- Bitwise complement of a 32-bit word. -/
def not32 (x : Nat) : Nat := x ^^^ 4294967295

/-- SHA-256 big sigma 0. -/
def bsig0 (x : Nat) : Nat := rotr32 2 x ^^^ rotr32 13 x ^^^ rotr32 22 x

/-- SHA-256 big sigma 1. -/
def bsig1 (x : Nat) : Nat := rotr32 6 x ^^^ rotr32 11 x ^^^ rotr32 25 x

/-- SHA-256 small sigma 0. -/
def ssig0 (x : Nat) : Nat := rotr32 7 x ^^^ rotr32 18 x ^^^ shr32 3 x

/-- SHA-256 small sigma 1. -/
def ssig1 (x : Nat) : Nat := rotr32 17 x ^^^ rotr32 19 x ^^^ shr32 10 x

/-- SHA-256 round constants. -/
def K256 : List Nat :=
  [1116352408, 1899447441, 3049323471, 3921009573, 961987163,
   1508970993, 2453635748, 2870763221, 3624381080, 310598401,
   607225278, 1426881987, 1925078388, 2162078206, 2614888103,
   3248222580, 3835390401, 4022224774, 264347078, 604807628,
   770255983, 1249150122, 1555081692, 1996064986, 2554220882,
   2821834349, 2952996808, 3210313671, 3336571891, 3584528711,
   113926993, 338241895, 666307205, 773529912, 1294757372,
   1396182291, 1695183700, 1986661051, 2177026350, 2456956037,
   2730485921, 2820302411, 3259730800, 3345764771, 3516065817,
   3600352804, 4094571909, 275423344, 430227734, 506948616,
   659060556, 883997877, 958139571, 1322822218, 1537002063,
   1747873779, 1955562222, 2024104815, 2227730452, 2361852424,
   2428436474, 2756734187, 3204031479, 3329325298]

/-- Working state of the compression function. -/
structure Sha256State where
  a : Nat
  b : Nat
  c : Nat
  d : Nat
  e : Nat
  f : Nat
  g : Nat
  h : Nat
deriving Repr, DecidableEq

/-- Initial hash value. -/
def sha256Init : Sha256State :=
  ⟨1779033703, 3144134277, 1013904242, 2773480762,
   1359893119, 2600822924, 528734635, 1541459225⟩

/-- One round of the compression function; the pair carries the schedule
word and the round constant. -/
def compressStep (s : Sha256State) (kw : Nat × Nat) : Sha256State :=
  let ch := (s.e &&& s.f) ^^^ (not32 s.e &&& s.g)
  let maj := (s.a &&& s.b) ^^^ (s.a &&& s.c) ^^^ (s.b &&& s.c)
  let t1 := (s.h + bsig1 s.e + ch + kw.2 + kw.1) % M32
  let t2 := (bsig0 s.a + maj) % M32
  ⟨(t1 + t2) % M32, s.a, s.b, s.c, (s.d + t1) % M32, s.e, s.f, s.g⟩

/-- Big-endian 32-bit words of a byte list. -/
def bytesToWords : List Nat → List Nat
  | a :: b :: c :: d :: rest => (a * 16777216 + b * 65536 + c * 256 + d) :: bytesToWords rest
  | _ => []

/-- Schedule word extension step appended at the end of the word list. -/
def nextScheduleWord (w : List Nat) : Nat :=
  let i := w.length
  (ssig1 (w.getD (i - 2) 0) + w.getD (i - 7) 0 + ssig0 (w.getD (i - 15) 0) +
      w.getD (i - 16) 0) % M32

/-- Extend the 16 message words to the 64 schedule words. -/
def scheduleExtend : Nat → List Nat → List Nat
  | 0, w => w
  | k + 1, w => scheduleExtend k (w ++ [nextScheduleWord w])

/-- Compress one 64-byte block into the running state. -/
def compressBlock (H : Sha256State) (block : List Nat) : Sha256State :=
  let w := scheduleExtend 48 (bytesToWords block)
  let s := (w.zip K256).foldl compressStep H
  ⟨(H.a + s.a) % M32, (H.b + s.b) % M32, (H.c + s.c) % M32, (H.d + s.d) % M32,
   (H.e + s.e) % M32, (H.f + s.f) % M32, (H.g + s.g) % M32, (H.h + s.h) % M32⟩

/-- Big-endian 64-bit length field of the padding. -/
def u64be (n : Nat) : List Nat :=
  [n / 2 ^ 56 % 256, n / 2 ^ 48 % 256, n / 2 ^ 40 % 256, n / 2 ^ 32 % 256,
   n / 2 ^ 24 % 256, n / 2 ^ 16 % 256, n / 2 ^ 8 % 256, n % 256]

/-- SHA-256 message padding. -/
def padBytes (msg : List Nat) : List Nat :=
  msg ++ 0x80 :: (List.replicate ((64 - (msg.length + 9) % 64) % 64) 0 ++ u64be (msg.length * 8))

/-- Split a byte list into 64-byte blocks (fuelled structural recursion; the
fuel is always ample for the argument supplied). -/
def chunks64Aux : Nat → List Nat → List (List Nat)
  | 0, _ => []
  | _, [] => []
  | fuel + 1, l => l.take 64 :: chunks64Aux fuel (l.drop 64)

/-- Split a byte list into 64-byte blocks. -/
def chunks64 (l : List Nat) : List (List Nat) := chunks64Aux (l.length + 1) l

/-- SHA-256 of a byte list. -/
def sha256 (msg : List Nat) : Sha256State :=
  (chunks64 (padBytes msg)).foldl compressBlock sha256Init

/-- UTF-8 encoding of one character (scalar value, as `Buffer.from(s)`). -/
def utf8EncodeChar (c : Char) : List Nat :=
  let n := c.toNat
  if n < 128 then [n]
  else if n < 2048 then [192 + n / 64, 128 + n % 64]
  else if n < 65536 then [224 + n / 4096, 128 + n / 64 % 64, 128 + n % 64]
  else [240 + n / 262144, 128 + n / 4096 % 64, 128 + n / 64 % 64, 128 + n % 64]

/-- UTF-8 bytes of a string. -/
def utf8Bytes (s : String) : List Nat := (s.data.map utf8EncodeChar).flatten

/-- Lowercase hex digit of the low nibble. -/
def hexNib (n : Nat) : Char := Nat.digitChar (n % 16)

/-- Eight lowercase hex digits of a 32-bit word. -/
def wordHex (w : Nat) : List Char :=
  [hexNib (w / 2 ^ 28), hexNib (w / 2 ^ 24), hexNib (w / 2 ^ 20), hexNib (w / 2 ^ 16),
   hexNib (w / 2 ^ 12), hexNib (w / 2 ^ 8), hexNib (w / 2 ^ 4), hexNib w]

/-- Hex digest characters of a hash state (`digest("hex")`). -/
def stateHex (s : Sha256State) : List Char :=
  wordHex s.a ++ wordHex s.b ++ wordHex s.c ++ wordHex s.d ++
    wordHex s.e ++ wordHex s.f ++ wordHex s.g ++ wordHex s.h

/-- Hex digest characters of the SHA-256 of a string. -/
def sha256HexOfString (s : String) : List Char := stateHex (sha256 (utf8Bytes s))

/-! ### src/lib/google-drive-summaries.ts -/

/-- JS `Array.prototype.join(sep)`. -/
def joinSep (sep : String) : List String → String
  | [] => ""
  | [a] => a
  | a :: b :: rest => a ++ sep ++ joinSep sep (b :: rest)

/-- One line of the hash input: `date.toISOString() + "|" + text`. -/
def entryLine (e : ParsedEntry) : String := msToIso e.date ++ "|" ++ e.text

/-- The hash input of `generateContentHash`: the entries' ISO timestamp and
text lines joined with newlines. -/
def serializeContent (entries : List ParsedEntry) : String :=
  joinSep "\n" (entries.map entryLine)

/-- Function `generateContentHash` of `google-drive-summaries.ts`:
`sha256(content).digest("hex").slice(0, 16)`. -/
def generateContentHash (entries : List ParsedEntry) : String :=
  String.mk ((sha256HexOfString (serializeContent entries)).take 16)

/-! ### Character-level facts about the serialized hash input -/

theorem digitChar_ne_pipe_newline (m : Nat) :
    Nat.digitChar m ≠ '|' ∧ Nat.digitChar m ≠ '\n' := by
  by_cases h : m < 16
  · have hall : ∀ k, k < 16 → Nat.digitChar k ≠ '|' ∧ Nat.digitChar k ≠ '\n' := by decide
    exact hall m h
  · have hstar : Nat.digitChar m = '*' := by
      unfold Nat.digitChar
      have h0 : m ≠ 0 := by omega
      have h1 : m ≠ 1 := by omega
      have h2 : m ≠ 2 := by omega
      have h3 : m ≠ 3 := by omega
      have h4 : m ≠ 4 := by omega
      have h5 : m ≠ 5 := by omega
      have h6 : m ≠ 6 := by omega
      have h7 : m ≠ 7 := by omega
      have h8 : m ≠ 8 := by omega
      have h9 : m ≠ 9 := by omega
      have h10 : m ≠ 10 := by omega
      have h11 : m ≠ 11 := by omega
      have h12 : m ≠ 12 := by omega
      have h13 : m ≠ 13 := by omega
      have h14 : m ≠ 14 := by omega
      have h15 : m ≠ 15 := by omega
      simp [h0, h1, h2, h3, h4, h5, h6, h7, h8, h9, h10, h11, h12, h13, h14, h15]
    rw [hstar]
    exact ⟨by decide, by decide⟩

theorem natStrAux_chars (fuel : Nat) :
    ∀ n, ∀ c ∈ natStrAux fuel n, c ≠ '|' ∧ c ≠ '\n' := by
  induction fuel with
  | zero => intro n c hc; simp [natStrAux] at hc
  | succ fuel ih =>
      intro n c hc
      unfold natStrAux at hc
      by_cases h : n < 10
      · simp [h] at hc
        subst hc
        exact digitChar_ne_pipe_newline n
      · simp [h] at hc
        rcases hc with hc | hc
        · exact ih _ c hc
        · subst hc
          exact digitChar_ne_pipe_newline _

theorem natStr_chars (n : Nat) : ∀ c ∈ (natStr n).data, c ≠ '|' ∧ c ≠ '\n' :=
  natStrAux_chars _ _

theorem append_chars {P : Char → Prop} {s t : String}
    (hs : ∀ c ∈ s.data, P c) (ht : ∀ c ∈ t.data, P c) :
    ∀ c ∈ (s ++ t).data, P c := by
  intro c hc
  rw [String.data_append] at hc
  rcases List.mem_append.mp hc with h | h
  exacts [hs c h, ht c h]

theorem padZero_chars (w : Nat) (s : String)
    (hs : ∀ c ∈ s.data, c ≠ '|' ∧ c ≠ '\n') :
    ∀ c ∈ (padZero w s).data, c ≠ '|' ∧ c ≠ '\n' := by
  refine append_chars ?_ hs
  intro c hc
  have := List.eq_of_mem_replicate hc
  subst this
  exact ⟨by decide, by decide⟩

theorem isoYearStr_chars (y : Int) :
    ∀ c ∈ (isoYearStr y).data, c ≠ '|' ∧ c ≠ '\n' := by
  unfold isoYearStr
  split_ifs
  · exact padZero_chars _ _ (natStr_chars _)
  · exact append_chars (by decide) (padZero_chars _ _ (natStr_chars _))
  · exact append_chars (by decide) (padZero_chars _ _ (natStr_chars _))

theorem msToIso_chars (t : Int) :
    ∀ c ∈ (msToIso t).data, c ≠ '|' ∧ c ≠ '\n' := by
  unfold msToIso
  exact
    append_chars (append_chars (append_chars (append_chars (append_chars (append_chars
      (append_chars (append_chars (append_chars (append_chars (append_chars (append_chars
        (append_chars (isoYearStr_chars _) (by decide))
        (padZero_chars _ _ (natStr_chars _))) (by decide))
        (padZero_chars _ _ (natStr_chars _))) (by decide))
        (padZero_chars _ _ (natStr_chars _))) (by decide))
        (padZero_chars _ _ (natStr_chars _))) (by decide))
        (padZero_chars _ _ (natStr_chars _))) (by decide))
        (padZero_chars _ _ (natStr_chars _))) (by decide)

theorem msToIso_no_pipe (t : Int) : '|' ∉ (msToIso t).data := by
  intro h
  exact (msToIso_chars t '|' h).1 rfl

theorem msToIso_no_newline (t : Int) : '\n' ∉ (msToIso t).data := by
  intro h
  exact (msToIso_chars t '\n' h).2 rfl

/-- A list with a distinguished occurrence of a character that occurs in
neither prefix determines the prefix and the suffix uniquely. -/
theorem splitAtChar_unique (ch : Char) :
    ∀ (a b u v : List Char), ch ∉ a → ch ∉ b →
      a ++ ch :: u = b ++ ch :: v → a = b ∧ u = v := by
  intro a
  induction a with
  | nil =>
      intro b u v _ hb h
      cases b with
      | nil => simpa using h
      | cons y ys =>
          simp only [List.nil_append, List.cons_append, List.cons.injEq] at h
          exact absurd (List.mem_cons_self y ys) (by rw [← h.1] at hb ⊢; exact hb)
  | cons x xs ih =>
      intro b u v ha hb h
      cases b with
      | nil =>
          simp only [List.nil_append, List.cons_append, List.cons.injEq] at h
          exact absurd (h.1 ▸ List.mem_cons_self x xs) ha
      | cons y ys =>
          simp only [List.cons_append, List.cons.injEq] at h
          obtain ⟨rfl, h2⟩ := h
          have hrec := ih ys u v (fun hx => ha (List.mem_cons_of_mem _ hx))
            (fun hy => hb (List.mem_cons_of_mem _ hy)) h2
          exact ⟨by rw [hrec.1], hrec.2⟩

theorem joinSep_cons_ne_nil (sep a : String) (l : List String) (h : l ≠ []) :
    joinSep sep (a :: l) = a ++ sep ++ joinSep sep l := by
  cases l with
  | nil => exact absurd rfl h
  | cons b r => rfl

/-- The join of a list with one distinguished slot is a fixed prefix, the
slot's characters, and a fixed suffix. -/
theorem joinSep_decomp (sep : String) (p s : List String) :
    ∃ A B : List Char, ∀ t : String,
      (joinSep sep (p ++ t :: s)).data = A ++ (t.data ++ B) := by
  induction p with
  | nil =>
      cases s with
      | nil => exact ⟨[], [], fun t => by simp [joinSep]⟩
      | cons b r =>
          refine ⟨[], (sep ++ joinSep sep (b :: r)).data, fun t => ?_⟩
          rw [List.nil_append, joinSep_cons_ne_nil sep t (b :: r) (by simp)]
          simp [String.data_append]
  | cons a p' ih =>
      obtain ⟨A, B, hAB⟩ := ih
      refine ⟨(a ++ sep).data ++ A, B, fun t => ?_⟩
      rw [List.cons_append, joinSep_cons_ne_nil sep a _ (by simp)]
      simp [String.data_append, hAB t, List.append_assoc]

/-- Two adjacent slots of a join behave as a single slot holding their
separator-joined concatenation. -/
theorem joinSep_collapse (sep : String) (p : List String) (s : List String) (x y : String) :
    joinSep sep (p ++ x :: y :: s) = joinSep sep (p ++ (x ++ sep ++ y) :: s) := by
  induction p with
  | nil =>
      cases s with
      | nil => simp [joinSep]
      | cons b r =>
          rw [List.nil_append, List.nil_append,
            joinSep_cons_ne_nil sep x (y :: b :: r) (by simp),
            joinSep_cons_ne_nil sep y (b :: r) (by simp),
            joinSep_cons_ne_nil sep (x ++ sep ++ y) (b :: r) (by simp)]
          apply String.ext
          simp [String.data_append, List.append_assoc]
  | cons a p' ih =>
      rw [List.cons_append, List.cons_append,
        joinSep_cons_ne_nil sep a (p' ++ x :: y :: s) (by simp),
        joinSep_cons_ne_nil sep a (p' ++ (x ++ sep ++ y) :: s) (by simp), ih]

theorem entryLine_data (e : ParsedEntry) :
    (entryLine e).data = (msToIso e.date).data ++ '|' :: e.text.data := by
  simp [entryLine, String.data_append]

/-- Claim C2 (corrected): `generateContentHash` is a pure function of the
ordered `(isoTimestamp, text)` sequence — identical sequences give identical
digests; changing one entry's text, or changing one entry's timestamp so
that its ISO rendering changes, changes the serialized hash input; swapping
two adjacent entries with distinct `(isoTimestamp, text)` pairs changes the
serialized hash input provided their texts contain no newline. (Changes to
the serialized input are not guaranteed to change the truncated 16-character
digest itself, and entries whose text embeds the line separator can make a
reordering preserve even the serialized input; see the counterexample.) -/
theorem generateContentHash_content_properties :
    (∀ b₁ b₂ : List ParsedEntry,
      b₁.map (fun e => (msToIso e.date, e.text)) = b₂.map (fun e => (msToIso e.date, e.text)) →
      generateContentHash b₁ = generateContentHash b₂) ∧
    (∀ (p s : List ParsedEntry) (e : ParsedEntry) (t' : String), t' ≠ e.text →
      serializeContent (p ++ { e with text := t' } :: s) ≠ serializeContent (p ++ e :: s)) ∧
    (∀ (p s : List ParsedEntry) (e : ParsedEntry) (d' : Int), msToIso d' ≠ msToIso e.date →
      serializeContent (p ++ { e with date := d' } :: s) ≠ serializeContent (p ++ e :: s)) ∧
    (∀ (p s : List ParsedEntry) (e₁ e₂ : ParsedEntry),
      (msToIso e₁.date, e₁.text) ≠ (msToIso e₂.date, e₂.text) →
      '\n' ∉ e₁.text.data → '\n' ∉ e₂.text.data →
      serializeContent (p ++ e₁ :: e₂ :: s) ≠ serializeContent (p ++ e₂ :: e₁ :: s)) := by
  have hline : ∀ b : List ParsedEntry,
      b.map entryLine =
        (b.map (fun e => (msToIso e.date, e.text))).map (fun q => q.1 ++ "|" ++ q.2) := by
    intro b
    rw [List.map_map]
    rfl
  refine ⟨?_, ?_, ?_, ?_⟩
  · intro b₁ b₂ hmap
    have h : serializeContent b₁ = serializeContent b₂ := by
      unfold serializeContent
      rw [hline b₁, hline b₂, hmap]
    unfold generateContentHash
    rw [h]
  · intro p s e t' hne heq
    obtain ⟨A, B, hAB⟩ := joinSep_decomp "\n" (p.map entryLine) (s.map entryLine)
    unfold serializeContent at heq
    rw [List.map_append, List.map_cons, List.map_append, List.map_cons] at heq
    have hdata := congrArg String.data heq
    rw [hAB (entryLine { e with text := t' }), hAB (entryLine e)] at hdata
    have h1 := List.append_cancel_right (List.append_cancel_left hdata)
    rw [entryLine_data, entryLine_data] at h1
    have h2 := List.append_cancel_left h1
    exact hne (String.ext (by simpa using h2))
  · intro p s e d' hne heq
    obtain ⟨A, B, hAB⟩ := joinSep_decomp "\n" (p.map entryLine) (s.map entryLine)
    unfold serializeContent at heq
    rw [List.map_append, List.map_cons, List.map_append, List.map_cons] at heq
    have hdata := congrArg String.data heq
    rw [hAB (entryLine { e with date := d' }), hAB (entryLine e)] at hdata
    have h1 := List.append_cancel_right (List.append_cancel_left hdata)
    rw [entryLine_data, entryLine_data] at h1
    have h2 := splitAtChar_unique '|' _ _ _ _ (msToIso_no_pipe d') (msToIso_no_pipe e.date) h1
    exact hne (String.ext h2.1)
  · intro p s e₁ e₂ hne h1nl h2nl heq
    obtain ⟨A, B, hAB⟩ := joinSep_decomp "\n" (p.map entryLine) (s.map entryLine)
    unfold serializeContent at heq
    rw [List.map_append, List.map_cons, List.map_cons,
      List.map_append, List.map_cons, List.map_cons,
      joinSep_collapse "\n" (p.map entryLine) (s.map entryLine) (entryLine e₁) (entryLine e₂),
      joinSep_collapse "\n" (p.map entryLine) (s.map entryLine) (entryLine e₂) (entryLine e₁)]
      at heq
    have hdata := congrArg String.data heq
    rw [hAB (entryLine e₁ ++ "\n" ++ entryLine e₂), hAB (entryLine e₂ ++ "\n" ++ entryLine e₁)]
      at hdata
    have hmid := List.append_cancel_right (List.append_cancel_left hdata)
    rw [String.data_append, String.data_append, String.data_append, String.data_append,
      entryLine_data, entryLine_data] at hmid
    simp only [List.append_assoc, List.cons_append, List.singleton_append] at hmid
    have hpipe := splitAtChar_unique '|' _ _ _ _ (msToIso_no_pipe e₁.date)
      (msToIso_no_pipe e₂.date) hmid
    obtain ⟨hiso, hrest⟩ := hpipe
    have hnlsplit := splitAtChar_unique '\n' _ _ _ _ h1nl h2nl hrest
    exact hne (by
      rw [Prod.ext_iff]
      exact ⟨String.ext hiso, String.ext hnlsplit.1⟩)

/-- Witness for the corrected claim C2 at concrete inputs: two batches whose
`(isoTimestamp, text)` sequences agree (the `journal` metadata differs) hash
identically; changing the single entry's text from "a" to "b", changing its
timestamp from 0 to 1, or swapping two entries with texts "a" and "b",
changes the serialized hash input. -/
theorem generateContentHash_content_properties_witness :
    (generateContentHash [⟨0, "a", none, none⟩] =
      generateContentHash [⟨0, "a", some "j", none⟩]) ∧
    (serializeContent [(⟨0, "b", none, none⟩ : ParsedEntry)] ≠
      serializeContent [(⟨0, "a", none, none⟩ : ParsedEntry)]) ∧
    (serializeContent [(⟨1, "a", none, none⟩ : ParsedEntry)] ≠
      serializeContent [(⟨0, "a", none, none⟩ : ParsedEntry)]) ∧
    (serializeContent [(⟨0, "a", none, none⟩ : ParsedEntry), ⟨0, "b", none, none⟩] ≠
      serializeContent [(⟨0, "b", none, none⟩ : ParsedEntry), ⟨0, "a", none, none⟩]) :=
  ⟨generateContentHash_content_properties.1 _ _ (by decide),
   generateContentHash_content_properties.2.1 [] [] ⟨0, "a", none, none⟩ "b" (by decide),
   generateContentHash_content_properties.2.2.1 [] [] ⟨0, "a", none, none⟩ 1 (by decide),
   generateContentHash_content_properties.2.2.2 [] [] ⟨0, "a", none, none⟩
     ⟨0, "b", none, none⟩ (by decide) (by decide) (by decide)⟩

/-! ### Counterexample machinery for claim C2 -/

/-- The sixteen lowercase hex digit characters. -/
def hexCharsList : List Char := "0123456789abcdef".data

/-- Numeric value of a hex digit character. -/
def hexVal (c : Char) : Fin 16 :=
  ⟨hexCharsList.indexOf c % 16, Nat.mod_lt _ (by decide)⟩

theorem hexVal_inj_on :
    ∀ c ∈ hexCharsList, ∀ d ∈ hexCharsList, hexVal c = hexVal d → c = d := by decide

theorem hexNib_mem (k : Nat) : hexNib k ∈ hexCharsList := by
  have h : k % 16 < 16 := Nat.mod_lt _ (by decide)
  have hall : ∀ j, j < 16 → Nat.digitChar j ∈ hexCharsList := by decide
  exact hall _ h

theorem wordHex_mem (w : Nat) : ∀ c ∈ wordHex w, c ∈ hexCharsList := by
  intro c hc
  rw [wordHex] at hc
  fin_cases hc <;> exact hexNib_mem _

theorem stateHex_mem (st : Sha256State) : ∀ c ∈ stateHex st, c ∈ hexCharsList := by
  intro c hc
  simp only [stateHex, List.mem_append] at hc
  rcases hc with ((((((h | h) | h) | h) | h) | h) | h) | h <;> exact wordHex_mem _ c h

theorem stateHex_length (st : Sha256State) : (stateHex st).length = 64 := by
  simp [stateHex, wordHex]

theorem generateContentHash_length (b : List ParsedEntry) :
    (generateContentHash b).data.length = 16 := by
  show ((sha256HexOfString (serializeContent b)).take 16).length = 16
  rw [List.length_take, sha256HexOfString, stateHex_length]
  decide

theorem generateContentHash_mem_hex (b : List ParsedEntry) :
    ∀ c ∈ (generateContentHash b).data, c ∈ hexCharsList := by
  intro c hc
  exact stateHex_mem _ c (List.take_subset 16 _ hc)

/-- Counterexample to claim C2 as stated. First: a concrete reordering that
does not change the hash — the second entry's text embeds the newline
separator and the first line, so the two orders serialize to the same
string (hence the same digest) although the entries are distinct. Second:
the negation of the clause "changing any entry's text changes the hash" —
the digest keeps only 16 hex characters, so by pigeonhole there exist two
single-entry batches, identical except for their texts, with equal hashes. -/
theorem generateContentHash_claim_cex :
    (generateContentHash
        [⟨0, "t", none, none⟩, ⟨0, "t\n1970-01-01T00:00:00.000Z|t", none, none⟩] =
      generateContentHash
        [⟨0, "t\n1970-01-01T00:00:00.000Z|t", none, none⟩, ⟨0, "t", none, none⟩] ∧
      ([(⟨0, "t", none, none⟩ : ParsedEntry), ⟨0, "t\n1970-01-01T00:00:00.000Z|t", none, none⟩] ≠
        [(⟨0, "t\n1970-01-01T00:00:00.000Z|t", none, none⟩ : ParsedEntry), ⟨0, "t", none, none⟩])) ∧
    ¬ (∀ (d : Int) (t t' : String), t ≠ t' →
        generateContentHash [⟨d, t, none, none⟩] ≠ generateContentHash [⟨d, t', none, none⟩]) := by
  constructor
  · constructor
    · have h : serializeContent
          [⟨0, "t", none, none⟩, ⟨0, "t\n1970-01-01T00:00:00.000Z|t", none, none⟩] =
          serializeContent
          [⟨0, "t\n1970-01-01T00:00:00.000Z|t", none, none⟩, ⟨0, "t", none, none⟩] := by decide
      unfold generateContentHash
      rw [h]
    · decide
  · intro hclaim
    obtain ⟨n, m, hnm, hf⟩ := Fintype.exists_ne_map_eq_of_card_lt
      (fun (k : Fin (16 ^ 16 + 1)) (i : Fin 16) =>
        hexVal ((generateContentHash
          [⟨0, String.mk (List.replicate k.val 'a'), none, none⟩]).data.getD i.val '0'))
      (by
        rw [Fintype.card_fun, Fintype.card_fin, Fintype.card_fin]
        exact Nat.lt_succ_self _)
    have htext : String.mk (List.replicate n.val 'a') ≠ String.mk (List.replicate m.val 'a') := by
      intro he
      exact hnm (Fin.ext (by simpa using congrArg (fun s => s.data.length) he))
    refine hclaim 0 (String.mk (List.replicate n.val 'a'))
      (String.mk (List.replicate m.val 'a')) htext ?_
    apply String.ext
    apply List.ext_getElem
      (by rw [generateContentHash_length, generateContentHash_length])
    intro i h₁ h₂
    have hi : i < 16 := by rw [generateContentHash_length] at h₁; exact h₁
    have hfi := congrFun hf ⟨i, hi⟩
    simp only at hfi
    rw [List.getD_eq_getElem _ '0' h₁, List.getD_eq_getElem _ '0' h₂] at hfi
    exact hexVal_inj_on _
      (generateContentHash_mem_hex _ _ (List.getElem_mem h₁)) _
      (generateContentHash_mem_hex _ _ (List.getElem_mem h₂)) hfi

/-! ### Cache lookup: `findUncachedBatches` -/

/-- Persisted summary record (`interface CachedSummary`). -/
structure CachedSummary where
  periodKey : String
  periodLabel : String
  type : BatchType
  summary : String
  entryCount : Nat
  contentHash : String
  createdAt : String
deriving Repr, DecidableEq

/-- JS `Map.prototype.set`: replace in place if the key is present,
otherwise append (insertion order preserved). -/
def jsMapSet {α : Type} (k : String) (v : α) :
    List (String × α) → List (String × α)
  | [] => [(k, v)]
  | (k', v') :: rest =>
    if k' = k then (k, v) :: rest else (k', v') :: jsMapSet k v rest

/-- JS `Map.prototype.get`: the value stored under the key, if any. -/
def jsMapGet {α : Type} : List (String × α) → String → Option α
  | [], _ => none
  | (k', v) :: rest, k => if k' = k then some v else jsMapGet rest k

/-- Loop body of the batch check in `findUncachedBatches`: probe the index
by `periodKey:contentHash`; on a hit record it in the `cached` map under the
period key, otherwise push the batch index. -/
def findStep (cacheMap : List (String × CachedSummary))
    (getKey : List ParsedEntry → String)
    (acc : List (String × CachedSummary) × List Nat) (ib : Nat × List ParsedEntry) :
    List (String × CachedSummary) × List Nat :=
  match jsMapGet cacheMap (getKey ib.2 ++ ":" ++ generateContentHash ib.2) with
  | some cs => (jsMapSet (getKey ib.2) cs acc.1, acc.2)
  | none => (acc.1, acc.2 ++ [ib.1])

/-- Function `findUncachedBatches` of `google-drive-summaries.ts`. The
durable-store listing for the requested type (what `getCachedSummaries`
returned) is passed as a value; `!accessToken` is true in JS for both
`null` and the empty string. -/
def findUncachedBatches (accessToken : Option String)
    (batches : List (List ParsedEntry)) (getKey : List ParsedEntry → String)
    (listing : List CachedSummary) :
    List (String × CachedSummary) × List Nat :=
  if accessToken = none ∨ accessToken = some "" then
    ([], List.range batches.length)
  else
    let cacheMap := listing.foldl
      (fun m s => jsMapSet (s.periodKey ++ ":" ++ s.contentHash) s m) []
    batches.enum.foldl (findStep cacheMap getKey) ([], [])

theorem jsMapGet_nil {α : Type} (k : String) : jsMapGet ([] : List (String × α)) k = none := rfl

theorem jsMapGet_set {α : Type} (k k' : String) (v : α) (m : List (String × α)) :
    jsMapGet (jsMapSet k v m) k' = if k' = k then some v else jsMapGet m k' := by
  by_cases hk : k' = k
  · subst hk
    rw [if_pos rfl]
    induction m with
    | nil => simp [jsMapSet, jsMapGet]
    | cons p rest ih =>
        obtain ⟨k₀, v₀⟩ := p
        by_cases h0 : k₀ = k'
        · simp [jsMapSet, h0, jsMapGet]
        · simp [jsMapSet, h0, jsMapGet, ih]
  · rw [if_neg hk]
    induction m with
    | nil =>
        simp only [jsMapSet, jsMapGet]
        rw [if_neg (fun hc : k = k' => hk hc.symm)]
    | cons p rest ih =>
        obtain ⟨k₀, v₀⟩ := p
        by_cases h0 : k₀ = k
        · subst h0
          have h' : ¬ k₀ = k' := fun hc => hk hc.symm
          simp [jsMapSet, jsMapGet, h']
        · simp [jsMapSet, h0, jsMapGet, ih]

theorem jsMapGet_fold_isSome (listing : List CachedSummary) (k : String) :
    ∀ m₀ : List (String × CachedSummary),
      (jsMapGet (listing.foldl
          (fun m s => jsMapSet (s.periodKey ++ ":" ++ s.contentHash) s m) m₀) k).isSome ↔
        (jsMapGet m₀ k).isSome ∨ ∃ s ∈ listing, s.periodKey ++ ":" ++ s.contentHash = k := by
  induction listing with
  | nil => intro m₀; simp
  | cons s rest ih =>
      intro m₀
      rw [List.foldl_cons, ih, jsMapGet_set]
      by_cases h : k = s.periodKey ++ ":" ++ s.contentHash
      · rw [if_pos h]
        simp only [Option.isSome_some, true_or, true_iff]
        exact Or.inr ⟨s, List.mem_cons_self s rest, h.symm⟩
      · rw [if_neg h]
        constructor
        · rintro (hm | ⟨t, ht, hk⟩)
          · exact Or.inl hm
          · exact Or.inr ⟨t, List.mem_cons_of_mem s ht, hk⟩
        · rintro (hm | ⟨t, ht, hk⟩)
          · exact Or.inl hm
          · rcases List.mem_cons.mp ht with rfl | ht'
            · exact absurd hk.symm h
            · exact Or.inr ⟨t, ht', hk⟩

theorem findStep_foldl_snd (cacheMap : List (String × CachedSummary))
    (getKey : List ParsedEntry → String) :
    ∀ (l : List (Nat × List ParsedEntry)) (acc : List (String × CachedSummary) × List Nat),
      (l.foldl (findStep cacheMap getKey) acc).2 =
        acc.2 ++ (l.filter (fun ib =>
          (jsMapGet cacheMap
            (getKey ib.2 ++ ":" ++ generateContentHash ib.2)).isNone)).map Prod.fst := by
  intro l
  induction l with
  | nil => intro acc; simp
  | cons ib rest ih =>
      intro acc
      rw [List.foldl_cons]
      rcases hlook : jsMapGet cacheMap (getKey ib.2 ++ ":" ++ generateContentHash ib.2) with
        _ | cs
      · rw [show findStep cacheMap getKey acc ib = (acc.1, acc.2 ++ [ib.1]) by
          simp [findStep, hlook]]
        rw [ih]
        rw [List.filter_cons_of_pos (by simp [hlook])]
        simp
      · rw [show findStep cacheMap getKey acc ib = (jsMapSet (getKey ib.2) cs acc.1, acc.2) by
          simp [findStep, hlook]]
        rw [ih]
        rw [List.filter_cons_of_neg (by simp [hlook])]

theorem strColon_data (a b : String) :
    (a ++ ":" ++ b).data = a.data ++ ':' :: b.data := by
  simp [String.data_append]

theorem composite_key_eq_iff (a b c d : String)
    (ha : ':' ∉ a.data) (hc : ':' ∉ c.data) :
    a ++ ":" ++ b = c ++ ":" ++ d ↔ a = c ∧ b = d := by
  constructor
  · intro h
    have hd := congrArg String.data h
    rw [strColon_data, strColon_data] at hd
    obtain ⟨h1, h2⟩ := splitAtChar_unique ':' _ _ _ _ ha hc hd
    exact ⟨String.ext h1, String.ext h2⟩
  · rintro ⟨rfl, rfl⟩
    rfl

/-- Claim C3 (corrected): provided no period key (stored or computed)
contains the separator character `:` — true of the week/month key formats
the pipeline uses — `findUncachedBatches` reports batch index `i` as
uncached iff the store listing contains no summary whose `periodKey` and
`contentHash` both equal batch `i`'s computed key and content hash; and with
a null access token the cached map is empty and every index is reported
uncached. -/
theorem findUncachedBatches_spec (tok : String) (htok : tok ≠ "")
    (batches : List (List ParsedEntry)) (getKey : List ParsedEntry → String)
    (listing : List CachedSummary)
    (hstored : ∀ s ∈ listing, ':' ∉ s.periodKey.data)
    (hcomputed : ∀ b ∈ batches, ':' ∉ (getKey b).data) :
    (∀ i : Nat, i ∈ (findUncachedBatches (some tok) batches getKey listing).2 ↔
      i < batches.length ∧
        ¬ ∃ s ∈ listing, s.periodKey = getKey (batches.getD i []) ∧
          s.contentHash = generateContentHash (batches.getD i [])) ∧
    (findUncachedBatches none batches getKey listing =
      ([], List.range batches.length)) := by
  constructor
  · intro i
    have hne : ¬ (some tok = none ∨ some tok = some "") := by
      simp [htok]
    rw [findUncachedBatches, if_neg hne]
    rw [findStep_foldl_snd]
    simp only [List.nil_append, List.mem_map, List.mem_filter]
    constructor
    · rintro ⟨⟨j, b⟩, ⟨hmem, hnone⟩, rfl⟩
      have hjb := List.mk_mem_enum_iff_getElem?.mp hmem
      have hlt : j < batches.length := by
        by_contra hge
        rw [List.getElem?_eq_none (by omega)] at hjb
        cases hjb
      have hb : batches.getD j [] = b := by
        rw [List.getD_eq_getElem batches [] hlt]
        exact Option.some_injective _ ((List.getElem?_eq_getElem hlt).symm.trans hjb)
      refine ⟨hlt, ?_⟩
      rintro ⟨s, hs, hkey, hhash⟩
      rw [Option.isNone_iff_eq_none] at hnone
      have hsome : (jsMapGet (listing.foldl
          (fun m s => jsMapSet (s.periodKey ++ ":" ++ s.contentHash) s m) [])
          (getKey b ++ ":" ++ generateContentHash b)).isSome := by
        rw [jsMapGet_fold_isSome]
        exact Or.inr ⟨s, hs, by rw [hkey, hhash, hb]⟩
      rw [hnone] at hsome
      cases hsome
    · rintro ⟨hlt, hno⟩
      refine ⟨(i, batches.getD i []), ⟨?_, ?_⟩, rfl⟩
      · rw [List.mk_mem_enum_iff_getElem?, List.getElem?_eq_getElem hlt,
          List.getD_eq_getElem batches [] hlt]
      · rw [Option.isNone_iff_eq_none]
        by_contra hne'
        have hsome : (jsMapGet (listing.foldl
            (fun m s => jsMapSet (s.periodKey ++ ":" ++ s.contentHash) s m) [])
            (getKey (batches.getD i []) ++ ":" ++
              generateContentHash (batches.getD i []))).isSome := by
          rcases h : jsMapGet (listing.foldl
              (fun m s => jsMapSet (s.periodKey ++ ":" ++ s.contentHash) s m) [])
              (getKey (batches.getD i []) ++ ":" ++
                generateContentHash (batches.getD i [])) with _ | v
          · exact absurd h hne'
          · simp [h]
        rw [jsMapGet_fold_isSome] at hsome
        rcases hsome with hm | ⟨s, hs, hk⟩
        · simp [jsMapGet_nil] at hm
        · have hmemD : batches.getD i [] ∈ batches := by
            rw [List.getD_eq_getElem batches [] hlt]
            exact List.getElem_mem hlt
          have := (composite_key_eq_iff _ _ _ _ (hstored s hs)
            (hcomputed _ hmemD)).mp hk
          exact hno ⟨s, hs, this.1, this.2⟩
  · rw [findUncachedBatches, if_pos (Or.inl rfl)]

/-- Witness for the corrected claim C3: one batch, one stored summary for
the same period with a different hash — the batch is reported uncached; and
the null-token call reports everything uncached with an empty cached map. -/
theorem findUncachedBatches_spec_witness :
    (∀ i : Nat, i ∈ (findUncachedBatches (some "tok") [[⟨0, "x", none, none⟩]]
        (fun _ => "1970-01")
        [⟨"1970-01", "January 1970", .monthly, "s", 1, "0000000000000000", "c"⟩]).2 ↔
      i < 1 ∧
        ¬ ∃ s ∈ [(⟨"1970-01", "January 1970", .monthly, "s", 1, "0000000000000000",
            "c"⟩ : CachedSummary)],
          s.periodKey = (fun (_ : List ParsedEntry) => "1970-01") ([[(⟨0, "x", none,
            none⟩ : ParsedEntry)]].getD i []) ∧
          s.contentHash = generateContentHash ([[(⟨0, "x", none, none⟩ : ParsedEntry)]].getD i [])) ∧
    (findUncachedBatches none [[⟨0, "x", none, none⟩]] (fun _ => "1970-01")
        [⟨"1970-01", "January 1970", .monthly, "s", 1, "0000000000000000", "c"⟩] =
      ([], List.range 1)) :=
  findUncachedBatches_spec "tok" (by decide) [[⟨0, "x", none, none⟩]] (fun _ => "1970-01")
    [⟨"1970-01", "January 1970", .monthly, "s", 1, "0000000000000000", "c"⟩]
    (by decide) (by decide)

/-- Counterexample to claim C3 as stated: the cache index is keyed by the
concatenation `periodKey + ":" + contentHash`, so when a period key itself
contains `:` the concatenation can coincide with a different split — here
the stored summary has `periodKey = "a"` and `contentHash = "b:" + H` while
the batch computes `periodKey = "a:b"` and hash `H`; the batch is reported
cached (the uncached list is empty) although no stored summary matches the
batch componentwise. -/
theorem findUncachedBatches_cex :
    ((findUncachedBatches (some "tok") [[⟨0, "x", none, none⟩]] (fun _ => "a:b")
        [⟨"a", "lbl", .weekly, "s", 1,
          "b:" ++ generateContentHash [⟨0, "x", none, none⟩], "c"⟩]).2 = []) ∧
    ¬ ((⟨"a", "lbl", .weekly, "s", 1,
          "b:" ++ generateContentHash [⟨0, "x", none, none⟩], "c"⟩ : CachedSummary).periodKey
        = "a:b" ∧
      (⟨"a", "lbl", .weekly, "s", 1,
          "b:" ++ generateContentHash [⟨0, "x", none, none⟩], "c"⟩ : CachedSummary).contentHash
        = generateContentHash [⟨0, "x", none, none⟩]) := by
  constructor
  · have hkey : ("a" : String) ++ ":" ++ ("b:" ++ generateContentHash [⟨0, "x", none, none⟩]) =
        ("a:b" : String) ++ ":" ++ generateContentHash [⟨0, "x", none, none⟩] := by
      apply String.ext
      simp [String.data_append]
    rw [findUncachedBatches, if_neg (by simp)]
    rw [show ([[(⟨0, "x", none, none⟩ : ParsedEntry)]] : List (List ParsedEntry)).enum =
      [(0, [(⟨0, "x", none, none⟩ : ParsedEntry)])] from rfl]
    rw [findStep_foldl_snd]
    rw [List.filter_cons_of_neg, List.filter_nil]
    · simp
    · simp only [List.foldl_cons, List.foldl_nil]
      rw [show (jsMapSet ("a" ++ ":" ++ ("b:" ++ generateContentHash [⟨0, "x", none, none⟩]))
          (⟨"a", "lbl", .weekly, "s", 1,
            "b:" ++ generateContentHash [⟨0, "x", none, none⟩], "c"⟩ : CachedSummary) []) =
          [("a:b" ++ ":" ++ generateContentHash [⟨0, "x", none, none⟩],
            (⟨"a", "lbl", .weekly, "s", 1,
              "b:" ++ generateContentHash [⟨0, "x", none, none⟩], "c"⟩ : CachedSummary))] by
        rw [jsMapSet, hkey]]
      simp [jsMapGet, List.find?]
  · rintro ⟨h, _⟩
    exact absurd h (by decide)

/-! ### src/lib/haiku-summarizer.ts -/

/-- Content block of an upstream model response. -/
structure ModelBlock where
  type : String
  text : String
deriving Repr, DecidableEq

/-- Upstream model response (collaborator contract): content blocks plus
usage token counts. -/
structure ModelResponse where
  content : List ModelBlock
  inputTokens : Nat
  outputTokens : Nat
deriving Repr, DecidableEq

/-- Runtime summary record (`interface BatchSummary`). -/
structure BatchSummary where
  periodKey : String
  periodLabel : String
  type : BatchType
  summary : String
  entryCount : Nat
  inputTokens : Nat
  outputTokens : Nat
  fromCache : Bool
  fallback : Bool
deriving Repr, DecidableEq

/-- Constant `MAX_CONCURRENCY` of `haiku-summarizer.ts`. -/
def MAX_CONCURRENCY : Nat := 3

/-- Constant `MAX_RETRIES` of `haiku-summarizer.ts`. -/
def MAX_RETRIES : Nat := 3

/-- Constant `RETRY_DELAYS` (backoff milliseconds; latency is not modelled). -/
def RETRY_DELAYS : List Nat := [1000, 2000, 4000]

/-- JS `String.prototype.includes`. -/
def strIncludes (s pat : String) : Bool := decide (pat.data <:+: s.data)

/-- The rate-limit classification of the catch block:
`message.includes("rate") || includes("429") || includes("overloaded")`. -/
def isRateLimitMsg (msg : String) : Bool :=
  strIncludes msg "rate" || strIncludes msg "429" || strIncludes msg "overloaded"

/-- Outcome record of `summarizeBatch`. -/
structure SummarizeOutcome where
  summary : String
  inputTokens : Nat
  outputTokens : Nat
  fallback : Bool
deriving Repr, DecidableEq

/-- JS `text.slice(0, 200)` (first 200 characters in the model). -/
def strTake (n : Nat) (s : String) : String := String.mk (s.data.take n)

/-- The fallback of `summarizeBatch`: the last three entries, each truncated
to 200 characters, under the unavailability banner; zero token counts,
`fallback = true`. -/
def fallbackSummary (entries : List ParsedEntry) : SummarizeOutcome :=
  let truncatedEntries := joinSep "\n\n"
    ((entries.drop (entries.length - 3)).map fun e =>
      "[" ++ isoDateOnly e.date ++ "] " ++ strTake 200 e.text ++
        (if 200 < e.text.length then "..." else ""))
  { summary := "[Summary unavailable - showing recent entries from this period]\n\n" ++
      truncatedEntries
    inputTokens := 0
    outputTokens := 0
    fallback := true }

/-- The retry loop of `summarizeBatch`. The upstream call is an oracle from
the attempt number to an outcome; a response without a text block raises
inside the try and is caught as a non-rate-limited error, which breaks to
the fallback. The fuel starts at `MAX_RETRIES + 1` and is never exhausted
before the loop's own exit conditions. -/
def summarizeBatchLoop (call : Nat → Except String ModelResponse)
    (entries : List ParsedEntry) : Nat → Nat → SummarizeOutcome
  | _, 0 => fallbackSummary entries
  | attempt, fuel + 1 =>
    match call attempt with
    | .ok resp =>
      match resp.content.find? (fun b => b.type == "text") with
      | some block =>
        { summary := block.text
          inputTokens := resp.inputTokens
          outputTokens := resp.outputTokens
          fallback := false }
      | none => fallbackSummary entries
    | .error msg =>
      if attempt < MAX_RETRIES ∧ isRateLimitMsg msg = true then
        summarizeBatchLoop call entries (attempt + 1) fuel
      else fallbackSummary entries

/-- Function `summarizeBatch` of `haiku-summarizer.ts`: the period label is
computed before the loop and throws on an empty batch; the prompt and
request construction are absorbed into the call oracle. -/
def summarizeBatch (call : Nat → Except String ModelResponse)
    (entries : List ParsedEntry) (type : BatchType) : Except String SummarizeOutcome :=
  match formatBatchPeriod entries type with
  | none => .error "Cannot get date range for empty batch"
  | some _ => .ok (summarizeBatchLoop call entries 0 (MAX_RETRIES + 1))

/-- The per-batch processor closure of `summarizeBatches`: build the period
key and label from the batch and wrap the loop outcome into a
`BatchSummary` with `fromCache = false`. -/
def summarizeOne (call : Nat → Nat → Except String ModelResponse) (type : BatchType)
    (i : Nat) (batch : List ParsedEntry) : Except String BatchSummary :=
  match getBatchPeriodKey batch type, formatBatchPeriod batch type with
  | some periodKey, some periodLabel =>
    let result := summarizeBatchLoop (call i) batch 0 (MAX_RETRIES + 1)
    .ok
      { periodKey := periodKey
        periodLabel := periodLabel
        type := type
        summary := result.summary
        entryCount := batch.length
        inputTokens := result.inputTokens
        outputTokens := result.outputTokens
        fromCache := false
        fallback := result.fallback }
  | _, _ => .error "Cannot get date range for empty batch"

/-- The result array of `summarizeBatches` by input index (the value each
pool execution writes at slot `i`). -/
def summarizeBatchesFn (call : Nat → Nat → Except String ModelResponse)
    (batches : List (List ParsedEntry)) (type : BatchType) :
    List (Except String BatchSummary) :=
  batches.mapIdx (fun i b => summarizeOne call type i b)

/-- The persistence filter of the generate route: only non-fallback
summaries are mapped into `CachedSummary` records and saved. -/
def routeToCache (now : Int) (type : BatchType)
    (uncachedBatches : List (List ParsedEntry)) (newSummaries : List BatchSummary) :
    List CachedSummary :=
  (newSummaries.filter (fun s => !s.fallback)).map fun s =>
    let batch := ((uncachedBatches.find?
      (fun b => (getBatchPeriodKey b type).getD "" == s.periodKey)).getD [])
    { periodKey := s.periodKey
      periodLabel := s.periodLabel
      type := s.type
      summary := s.summary
      entryCount := s.entryCount
      contentHash := generateContentHash batch
      createdAt := msToIso now }

/-! ### The worker-pool of `processBatchesWithConcurrency` as a transition
system: a shared cursor, a multiset of claimed-but-unfinished indices, and
the results array. -/

/-- Pool configuration state: shared cursor, in-flight indices, results. -/
structure PoolState (R : Type) where
  next : Nat
  pending : List Nat
  results : List (Option R)
deriving Repr

/-- Interleaving semantics of the worker pool: a worker may claim the next
index (when the cursor is not exhausted and fewer in-flight items than
workers exist), or finish any in-flight index, writing `f i` at slot `i`. -/
inductive PoolStep {R : Type} (f : Nat → R) (n limit : Nat) :
    PoolState R → PoolState R → Prop
  | claim (s : PoolState R) (h : s.next < n) (hp : s.pending.length < limit) :
      PoolStep f n limit s ⟨s.next + 1, s.pending ++ [s.next], s.results⟩
  | complete (s : PoolState R) (i : Nat) (h : i ∈ s.pending) :
      PoolStep f n limit s ⟨s.next, s.pending.erase i, s.results.set i (some (f i))⟩

/-- Initial pool state. -/
def poolInit (R : Type) (n : Nat) : PoolState R := ⟨0, [], List.replicate n none⟩

/-- Reachability under any interleaving of claims and completions. -/
def PoolReaches {R : Type} (f : Nat → R) (n limit : Nat) (s : PoolState R) : Prop :=
  Relation.ReflTransGen (PoolStep f n limit) (poolInit R n) s

/-- The pool has terminated: the cursor is exhausted and nothing in flight
(`Promise.all` of the workers has resolved). -/
def PoolDone {R : Type} (n : Nat) (s : PoolState R) : Prop :=
  s.next = n ∧ s.pending = []

/-- Invariant of the pool: result length fixed, cursor bounded, in-flight
indices below the cursor, and every claimed-and-finished slot holds its own
index's value. -/
def PoolInv {R : Type} (f : Nat → R) (n : Nat) (s : PoolState R) : Prop :=
  s.results.length = n ∧ s.next ≤ n ∧ (∀ i ∈ s.pending, i < s.next) ∧
    (∀ i, i < s.next → i ∉ s.pending → s.results.getD i none = some (f i))

theorem poolInv_init {R : Type} (f : Nat → R) (n : Nat) : PoolInv f n (poolInit R n) := by
  refine ⟨by simp [poolInit], by simp [poolInit], by simp [poolInit], ?_⟩
  intro i hi
  simp [poolInit] at hi

theorem poolInv_step {R : Type} (f : Nat → R) (n limit : Nat) (s s' : PoolState R)
    (hstep : PoolStep f n limit s s') (hinv : PoolInv f n s) : PoolInv f n s' := by
  obtain ⟨hlen, hle, hpend, hdone⟩ := hinv
  cases hstep with
  | claim h hp =>
      refine ⟨hlen, ?_, ?_, ?_⟩
      · dsimp only
        omega
      · intro i hi
        dsimp only at hi ⊢
        rcases List.mem_append.mp hi with hi | hi
        · exact Nat.lt_succ_of_lt (hpend i hi)
        · simp at hi
          omega
      · intro i hi hnp
        dsimp only at hi hnp ⊢
        rcases Nat.lt_succ_iff_lt_or_eq.mp hi with hi' | rfl
        · exact hdone i hi' (fun hc => hnp (List.mem_append.mpr (Or.inl hc)))
        · exact absurd (List.mem_append.mpr (Or.inr (by simp))) hnp
  | complete i h =>
      refine ⟨?_, hle, ?_, ?_⟩
      · dsimp only
        simpa using hlen
      · intro j hj
        dsimp only at hj ⊢
        exact hpend j (List.mem_of_mem_erase hj)
      · intro j hj hnp
        dsimp only at hj hnp ⊢
        have hin : i < s.next := hpend i h
        by_cases hji : j = i
        · subst hji
          rw [List.getD_eq_getElem _ none (by rw [List.length_set, hlen]; omega)]
          rw [List.getElem_set]
          simp
        · have hjp : j ∉ s.pending := by
            intro hc
            exact hnp ((List.mem_erase_of_ne hji).mpr hc)
          have hprev := hdone j hj hjp
          rw [List.getD_eq_getElem _ none (by rw [hlen]; omega)] at hprev
          rw [List.getD_eq_getElem _ none (by rw [List.length_set, hlen]; omega)]
          rw [List.getElem_set]
          rw [if_neg (fun hc : i = j => hji hc.symm)]
          exact hprev

theorem poolInv_reaches {R : Type} (f : Nat → R) (n limit : Nat) (s : PoolState R)
    (h : PoolReaches f n limit s) : PoolInv f n s := by
  induction h with
  | refl => exact poolInv_init f n
  | tail _ hstep ih => exact poolInv_step f n limit _ _ hstep ih

/-- Any terminated pool execution, under any interleaving, produces exactly
the by-index results array. -/
theorem pool_result {R : Type} (f : Nat → R) (n limit : Nat) (s : PoolState R)
    (hreach : PoolReaches f n limit s) (hdone : PoolDone n s) :
    s.results = (List.range n).map (fun i => some (f i)) := by
  obtain ⟨hlen, _, _, hval⟩ := poolInv_reaches f n limit s hreach
  obtain ⟨hnext, hpend⟩ := hdone
  apply List.ext_getElem (by simp [hlen])
  intro i h₁ h₂
  have hi : i < n := by rw [hlen] at h₁; exact h₁
  have := hval i (by omega) (by simp [hpend])
  rw [List.getD_eq_getElem _ none h₁] at this
  rw [this]
  simp

theorem getBatchDateRange_isSome (b : List ParsedEntry) (h : b ≠ []) :
    ∃ r, getBatchDateRange b = some r := by
  cases b with
  | nil => exact absurd rfl h
  | cons e rest => exact ⟨_, rfl⟩

theorem summarizeBatchLoop_allfail (call : Nat → Except String ModelResponse)
    (entries : List ParsedEntry) :
    ∀ (fuel attempt : Nat),
      (∀ a, a ≤ MAX_RETRIES → ∃ msg, call a = Except.error msg) →
      summarizeBatchLoop call entries attempt fuel = fallbackSummary entries ∨
        MAX_RETRIES < attempt := by
  intro fuel
  induction fuel with
  | zero => intro attempt _; exact Or.inl rfl
  | succ fuel ih =>
      intro attempt hfail
      by_cases hle : attempt ≤ MAX_RETRIES
      · obtain ⟨msg, hmsg⟩ := hfail attempt hle
        left
        unfold summarizeBatchLoop
        rw [hmsg]
        show (if attempt < MAX_RETRIES ∧ isRateLimitMsg msg = true then
            summarizeBatchLoop call entries (attempt + 1) fuel
          else fallbackSummary entries) = fallbackSummary entries
        by_cases hc : attempt < MAX_RETRIES ∧ isRateLimitMsg msg = true
        · rw [if_pos hc]
          rcases ih (attempt + 1) hfail with h | h
          · exact h
          · omega
        · rw [if_neg hc]
      · right; omega

/-- Claim C4: when every upstream attempt for batch `i` fails, the result
slot for that batch is a successfully returned `BatchSummary` (no error is
raised) with `fallback = true` and zero token counts, and that summary is
not in the non-fallback filter from which the route builds its persistence
list. -/
theorem summarizeBatches_fallback_excluded
    (call : Nat → Nat → Except String ModelResponse)
    (batches : List (List ParsedEntry)) (type : BatchType) (i : Nat)
    (hi : i < batches.length) (hne : batches.getD i [] ≠ [])
    (hfail : ∀ a, a ≤ MAX_RETRIES → ∃ msg, call i a = Except.error msg) :
    ∃ s : BatchSummary,
      (summarizeBatchesFn call batches type).getD i (Except.error "") = Except.ok s ∧
      s.fallback = true ∧ s.inputTokens = 0 ∧ s.outputTokens = 0 ∧
      s ∉ ((summarizeBatchesFn call batches type).filterMap Except.toOption).filter
        (fun t => !t.fallback) := by
  have hloop : summarizeBatchLoop (call i) (batches.getD i []) 0 (MAX_RETRIES + 1) =
      fallbackSummary (batches.getD i []) := by
    rcases summarizeBatchLoop_allfail (call i) (batches.getD i []) (MAX_RETRIES + 1) 0 hfail with
      h | h
    · exact h
    · exact absurd h (by simp [MAX_RETRIES])
  obtain ⟨r, hr⟩ := getBatchDateRange_isSome (batches.getD i []) hne
  have hgetd : (summarizeBatchesFn call batches type).getD i (Except.error "") =
      summarizeOne call type i (batches.getD i []) := by
    have hlen : i < (summarizeBatchesFn call batches type).length := by
      simpa [summarizeBatchesFn] using hi
    rw [List.getD_eq_getElem _ _ hlen]
    show (batches.mapIdx (fun j b => summarizeOne call type j b))[i] = _
    rw [List.getElem_mapIdx]
    rw [List.getD_eq_getElem batches [] hi]
  obtain ⟨pk, pl, hpk, hpl⟩ :
      ∃ pk pl, getBatchPeriodKey (batches.getD i []) type = some pk ∧
        formatBatchPeriod (batches.getD i []) type = some pl := by
    rw [getBatchPeriodKey, formatBatchPeriod, hr]
    exact ⟨_, _, rfl, rfl⟩
  have hsum : summarizeOne call type i (batches.getD i []) = Except.ok
      { periodKey := pk
        periodLabel := pl
        type := type
        summary := (fallbackSummary (batches.getD i [])).summary
        entryCount := (batches.getD i []).length
        inputTokens := 0
        outputTokens := 0
        fromCache := false
        fallback := true } := by
    unfold summarizeOne
    rw [hpk, hpl, hloop]
    rfl
  refine ⟨_, hgetd.trans hsum, rfl, rfl, rfl, ?_⟩
  intro hmem
  have hfalse := (List.mem_filter.mp hmem).2
  simp at hfalse

/-- Witness for claim C4: a one-batch run whose model call always fails
with "boom" (a terminal, non-rate-limited error) returns a fallback summary
with zero token counts, excluded from the persistence filter. -/
theorem summarizeBatches_fallback_excluded_witness :
    ∃ s : BatchSummary,
      (summarizeBatchesFn (fun _ _ => Except.error "boom")
          [[⟨0, "hello", none, none⟩]] BatchType.weekly).getD 0 (Except.error "") =
        Except.ok s ∧
      s.fallback = true ∧ s.inputTokens = 0 ∧ s.outputTokens = 0 ∧
      s ∉ ((summarizeBatchesFn (fun _ _ => Except.error "boom")
          [[⟨0, "hello", none, none⟩]] BatchType.weekly).filterMap Except.toOption).filter
        (fun t => !t.fallback) :=
  summarizeBatches_fallback_excluded (fun _ _ => Except.error "boom")
    [[⟨0, "hello", none, none⟩]] BatchType.weekly 0 (by decide) (by decide)
    (fun a _ => ⟨"boom", rfl⟩)

/-- Claim C5: any terminated pool execution of `summarizeBatches`, whatever
the interleaving of worker claims and completions, yields a results array
of the input's length in which slot `i` holds exactly the processor output
for `batches[i]`; in particular for nonempty batches the slot's summary
carries the period key, period label and entry count computed from
`batches[i]`. -/
theorem summarizeBatches_result_order
    (call : Nat → Nat → Except String ModelResponse)
    (batches : List (List ParsedEntry)) (type : BatchType) (limit : Nat)
    (s : PoolState (Except String BatchSummary))
    (hreach : PoolReaches (fun i => summarizeOne call type i (batches.getD i []))
      batches.length limit s)
    (hdone : PoolDone batches.length s) :
    s.results.length = batches.length ∧
    (∀ i, i < batches.length →
      s.results.getD i none = some (summarizeOne call type i (batches.getD i []))) ∧
    (∀ i, i < batches.length → batches.getD i [] ≠ [] →
      ∃ pk pl, getBatchPeriodKey (batches.getD i []) type = some pk ∧
        formatBatchPeriod (batches.getD i []) type = some pl ∧
        s.results.getD i none = some (Except.ok
          { periodKey := pk
            periodLabel := pl
            type := type
            summary := (summarizeBatchLoop (call i) (batches.getD i []) 0
              (MAX_RETRIES + 1)).summary
            entryCount := (batches.getD i []).length
            inputTokens := (summarizeBatchLoop (call i) (batches.getD i []) 0
              (MAX_RETRIES + 1)).inputTokens
            outputTokens := (summarizeBatchLoop (call i) (batches.getD i []) 0
              (MAX_RETRIES + 1)).outputTokens
            fromCache := false
            fallback := (summarizeBatchLoop (call i) (batches.getD i []) 0
              (MAX_RETRIES + 1)).fallback })) := by
  have hres := pool_result _ batches.length limit s hreach hdone
  have hlen : s.results.length = batches.length := by
    rw [hres]; simp
  have hslot : ∀ i, i < batches.length →
      s.results.getD i none = some (summarizeOne call type i (batches.getD i [])) := by
    intro i hi
    rw [hres]
    rw [List.getD_eq_getElem _ none (by simpa using hi)]
    rw [List.getElem_map, List.getElem_range]
  refine ⟨hlen, hslot, ?_⟩
  intro i hi hne
  obtain ⟨r, hr⟩ := getBatchDateRange_isSome (batches.getD i []) hne
  obtain ⟨pk, pl, hpk, hpl⟩ :
      ∃ pk pl, getBatchPeriodKey (batches.getD i []) type = some pk ∧
        formatBatchPeriod (batches.getD i []) type = some pl := by
    rw [getBatchPeriodKey, formatBatchPeriod, hr]
    exact ⟨_, _, rfl, rfl⟩
  refine ⟨pk, pl, hpk, hpl, ?_⟩
  rw [hslot i hi]
  congr 1
  unfold summarizeOne
  rw [hpk, hpl]

/-- Call oracle of the C5 witness scenario (every call fails terminally;
the result slots are still well-formed fallback summaries). -/
def demoCall : Nat → Nat → Except String ModelResponse := fun _ _ => Except.error "boom"

/-- Two one-entry batches for the C5 witness scenario. -/
def demoBatches : List (List ParsedEntry) :=
  [[⟨0, "a", none, none⟩], [⟨86400000, "b", none, none⟩]]

/-- Per-index processor of the C5 witness scenario. -/
def demoF : Nat → Except String BatchSummary :=
  fun i => summarizeOne demoCall BatchType.weekly i (demoBatches.getD i [])

/-- Final pool state of the C5 witness run, in which batch 1 completes
before batch 0. -/
def demoFinal : PoolState (Except String BatchSummary) :=
  ⟨2, [],
    ((List.replicate 2 (none : Option (Except String BatchSummary))).set 1
      (some (demoF 1))).set 0 (some (demoF 0))⟩

/-- Witness for claim C5: a two-batch run scheduled so that batch 1
finishes before batch 0 still delivers `result[i]` for `batches[i]`. -/
theorem summarizeBatches_result_order_witness :
    demoFinal.results.length = demoBatches.length ∧
    (∀ i, i < demoBatches.length →
      demoFinal.results.getD i none =
        some (summarizeOne demoCall BatchType.weekly i (demoBatches.getD i []))) ∧
    (∀ i, i < demoBatches.length → demoBatches.getD i [] ≠ [] →
      ∃ pk pl, getBatchPeriodKey (demoBatches.getD i []) BatchType.weekly = some pk ∧
        formatBatchPeriod (demoBatches.getD i []) BatchType.weekly = some pl ∧
        demoFinal.results.getD i none = some (Except.ok
          { periodKey := pk
            periodLabel := pl
            type := BatchType.weekly
            summary := (summarizeBatchLoop (demoCall i) (demoBatches.getD i []) 0
              (MAX_RETRIES + 1)).summary
            entryCount := (demoBatches.getD i []).length
            inputTokens := (summarizeBatchLoop (demoCall i) (demoBatches.getD i []) 0
              (MAX_RETRIES + 1)).inputTokens
            outputTokens := (summarizeBatchLoop (demoCall i) (demoBatches.getD i []) 0
              (MAX_RETRIES + 1)).outputTokens
            fromCache := false
            fallback := (summarizeBatchLoop (demoCall i) (demoBatches.getD i []) 0
              (MAX_RETRIES + 1)).fallback })) := by
  have h1 : PoolStep demoF demoBatches.length MAX_CONCURRENCY
      (poolInit (Except String BatchSummary) demoBatches.length)
      ⟨1, [0], List.replicate 2 none⟩ :=
    PoolStep.claim _ (by decide) (by decide)
  have h2 : PoolStep demoF demoBatches.length MAX_CONCURRENCY
      ⟨1, [0], List.replicate 2 none⟩ ⟨2, [0, 1], List.replicate 2 none⟩ :=
    PoolStep.claim _ (by decide) (by decide)
  have h3 : PoolStep demoF demoBatches.length MAX_CONCURRENCY
      ⟨2, [0, 1], List.replicate 2 none⟩
      ⟨2, [0], (List.replicate 2 none).set 1 (some (demoF 1))⟩ :=
    PoolStep.complete _ 1 (by decide)
  have h4 : PoolStep demoF demoBatches.length MAX_CONCURRENCY
      ⟨2, [0], (List.replicate 2 none).set 1 (some (demoF 1))⟩ demoFinal :=
    PoolStep.complete _ 0 (by decide)
  have hreach : PoolReaches demoF demoBatches.length MAX_CONCURRENCY demoFinal :=
    Relation.ReflTransGen.head h1 (Relation.ReflTransGen.head h2
      (Relation.ReflTransGen.head h3 (Relation.ReflTransGen.head h4
        Relation.ReflTransGen.refl)))
  exact summarizeBatches_result_order demoCall demoBatches BatchType.weekly
    MAX_CONCURRENCY demoFinal hreach ⟨rfl, rfl⟩

/-! ### Drive persistence: `saveCachedSummary` -/

/-- A stored Drive object: id, name, JSON body. -/
structure DriveFile where
  id : Nat
  name : String
  content : String
deriving Repr, DecidableEq

/-- The per-user appDataFolder store: objects plus the id counter the
service would use for the next created object. -/
structure DriveState where
  files : List DriveFile
  nextId : Nat
deriving Repr, DecidableEq

/-- Rendering of the type tag. -/
def typeStr : BatchType → String
  | .weekly => "weekly"
  | .monthly => "monthly"

/-- Character class `[a-zA-Z0-9-]` of the filename sanitizer. -/
def isSafeChar (c : Char) : Bool :=
  ('a' ≤ c ∧ c ≤ 'z') ∨ ('A' ≤ c ∧ c ≤ 'Z') ∨ ('0' ≤ c ∧ c ≤ '9') ∨ c = '-'

/-- Sanitization `periodKey.replace(/[^a-zA-Z0-9-]/g, "_")`. -/
def sanitizePeriodKey (s : String) : String :=
  String.mk (s.data.map (fun c => if isSafeChar c then c else '_'))

/-- Function `getSummaryFileName` of `google-drive-summaries.ts`. -/
def getSummaryFileName (type : BatchType) (periodKey contentHash : String) : String :=
  "summary-" ++ typeStr type ++ "-" ++ sanitizePeriodKey periodKey ++ "-" ++
    contentHash ++ ".json"

/-- JSON string escaping of `JSON.stringify` for the characters that need
it; other characters pass through. -/
def jsonEscapeChar (c : Char) : List Char :=
  if c = '"' then ['\\', '"']
  else if c = '\\' then ['\\', '\\']
  else if c = '\n' then ['\\', 'n']
  else if c = '\r' then ['\\', 'r']
  else if c = '\t' then ['\\', 't']
  else if c.toNat < 32 then
    ['\\', 'u', '0', '0', hexNib (c.toNat / 16), hexNib c.toNat]
  else [c]

/-- A JSON string literal. -/
def jsonStr (s : String) : String :=
  "\"" ++ String.mk ((s.data.map jsonEscapeChar).flatten) ++ "\""

/-- Serialization `JSON.stringify(summary)` with the object's own property order. -/
def stringifySummary (s : CachedSummary) : String :=
  "\x7b\"periodKey\":" ++ jsonStr s.periodKey ++
    ",\"periodLabel\":" ++ jsonStr s.periodLabel ++
    ",\"type\":" ++ jsonStr (typeStr s.type) ++
    ",\"summary\":" ++ jsonStr s.summary ++
    ",\"entryCount\":" ++ natStr s.entryCount ++
    ",\"contentHash\":" ++ jsonStr s.contentHash ++
    ",\"createdAt\":" ++ jsonStr s.createdAt ++ "\x7d"

/-- Function `saveCachedSummary` of `google-drive-summaries.ts`: list the
objects with the deterministic filename, update the first hit in place,
otherwise create a new object under a fresh id. -/
def saveCachedSummary (st : DriveState) (summary : CachedSummary) : DriveState :=
  let fileName := getSummaryFileName summary.type summary.periodKey summary.contentHash
  match st.files.find? (fun f => f.name == fileName) with
  | some f =>
    { st with files := st.files.map (fun g =>
        if g.id = f.id then { g with content := stringifySummary summary } else g) }
  | none =>
    { files := st.files ++
        [{ id := st.nextId, name := fileName, content := stringifySummary summary }]
      nextId := st.nextId + 1 }

/-- Number of stored objects under a filename. -/
def countName (st : DriveState) (name : String) : Nat :=
  st.files.countP (fun f => f.name == name)

/-- Claim C6: starting from a store with no object under the summary's
filename, saving the same `(type, periodKey, contentHash)` twice leaves
exactly one stored object under that filename — the second call updates in
place, adding no object and minting no new id. -/
theorem saveCachedSummary_idempotent (st : DriveState) (summary : CachedSummary)
    (h : countName st
      (getSummaryFileName summary.type summary.periodKey summary.contentHash) = 0) :
    countName (saveCachedSummary (saveCachedSummary st summary) summary)
        (getSummaryFileName summary.type summary.periodKey summary.contentHash) = 1 ∧
    (saveCachedSummary (saveCachedSummary st summary) summary).files.length =
      (saveCachedSummary st summary).files.length ∧
    (saveCachedSummary (saveCachedSummary st summary) summary).nextId =
      (saveCachedSummary st summary).nextId := by
  have hnone : st.files.find? (fun f =>
      f.name == getSummaryFileName summary.type summary.periodKey summary.contentHash) =
      none := by
    rw [List.find?_eq_none]
    intro f hf hc
    have h1 : 0 < st.files.countP (fun f =>
        f.name == getSummaryFileName summary.type summary.periodKey summary.contentHash) :=
      List.countP_pos_iff.mpr ⟨f, hf, hc⟩
    have h0 : st.files.countP (fun f =>
        f.name == getSummaryFileName summary.type summary.periodKey summary.contentHash) =
        0 := h
    omega
  have hsave1 : saveCachedSummary st summary =
      { files := st.files ++
          [({ id := st.nextId
              name := getSummaryFileName summary.type summary.periodKey summary.contentHash
              content := stringifySummary summary } : DriveFile)]
        nextId := st.nextId + 1 } := by
    simp [saveCachedSummary, hnone]
  have hfind2 : (st.files ++
      [({ id := st.nextId
          name := getSummaryFileName summary.type summary.periodKey summary.contentHash
          content := stringifySummary summary } : DriveFile)]).find?
        (fun f =>
          f.name == getSummaryFileName summary.type summary.periodKey summary.contentHash) =
      some ({ id := st.nextId
              name := getSummaryFileName summary.type summary.periodKey summary.contentHash
              content := stringifySummary summary } : DriveFile) := by
    rw [List.find?_append, hnone, Option.none_or]
    simp [List.find?]
  have hsave2 : saveCachedSummary (saveCachedSummary st summary) summary =
      { files := (st.files ++
          [({ id := st.nextId
              name := getSummaryFileName summary.type summary.periodKey summary.contentHash
              content := stringifySummary summary } : DriveFile)]).map
            (fun g => if g.id = st.nextId then
              { g with content := stringifySummary summary } else g)
        nextId := st.nextId + 1 } := by
    rw [hsave1]
    simp only [saveCachedSummary, hfind2]
  have hfuneq : ((fun f : DriveFile =>
      f.name == getSummaryFileName summary.type summary.periodKey summary.contentHash) ∘
        (fun g : DriveFile => if g.id = st.nextId then
          { g with content := stringifySummary summary } else g)) =
      (fun f : DriveFile =>
        f.name == getSummaryFileName summary.type summary.periodKey summary.contentHash) := by
    funext g
    by_cases hg : g.id = st.nextId <;> simp [Function.comp, hg]
  refine ⟨?_, ?_, ?_⟩
  · rw [hsave2]
    unfold countName
    rw [List.countP_map, hfuneq, List.countP_append]
    have h0 : st.files.countP (fun f =>
        f.name == getSummaryFileName summary.type summary.periodKey summary.contentHash) =
        0 := h
    rw [h0]
    simp [List.countP, List.countP.go]
  · rw [hsave2, hsave1]
    simp
  · rw [hsave2, hsave1]

/-- Witness for claim C6: the empty store, one concrete summary, saved
twice: one object under the filename, and the second save changes neither
the object count nor the id counter. -/
theorem saveCachedSummary_idempotent_witness :
    countName (saveCachedSummary (saveCachedSummary ⟨[], 0⟩
        ⟨"2024-W01", "Week of Jan 1, 2024", BatchType.weekly, "sum", 2, "abcdef0123456789",
          "2024-01-01T00:00:00.000Z"⟩)
        ⟨"2024-W01", "Week of Jan 1, 2024", BatchType.weekly, "sum", 2, "abcdef0123456789",
          "2024-01-01T00:00:00.000Z"⟩)
        (getSummaryFileName BatchType.weekly "2024-W01" "abcdef0123456789") = 1 ∧
    (saveCachedSummary (saveCachedSummary ⟨[], 0⟩
        ⟨"2024-W01", "Week of Jan 1, 2024", BatchType.weekly, "sum", 2, "abcdef0123456789",
          "2024-01-01T00:00:00.000Z"⟩)
        ⟨"2024-W01", "Week of Jan 1, 2024", BatchType.weekly, "sum", 2, "abcdef0123456789",
          "2024-01-01T00:00:00.000Z"⟩).files.length =
      (saveCachedSummary ⟨[], 0⟩
        ⟨"2024-W01", "Week of Jan 1, 2024", BatchType.weekly, "sum", 2, "abcdef0123456789",
          "2024-01-01T00:00:00.000Z"⟩).files.length ∧
    (saveCachedSummary (saveCachedSummary ⟨[], 0⟩
        ⟨"2024-W01", "Week of Jan 1, 2024", BatchType.weekly, "sum", 2, "abcdef0123456789",
          "2024-01-01T00:00:00.000Z"⟩)
        ⟨"2024-W01", "Week of Jan 1, 2024", BatchType.weekly, "sum", 2, "abcdef0123456789",
          "2024-01-01T00:00:00.000Z"⟩).nextId =
      (saveCachedSummary ⟨[], 0⟩
        ⟨"2024-W01", "Week of Jan 1, 2024", BatchType.weekly, "sum", 2, "abcdef0123456789",
          "2024-01-01T00:00:00.000Z"⟩).nextId :=
  saveCachedSummary_idempotent ⟨[], 0⟩
    ⟨"2024-W01", "Week of Jan 1, 2024", BatchType.weekly, "sum", 2, "abcdef0123456789",
      "2024-01-01T00:00:00.000Z"⟩ (by decide)

/-! ### src/lib/cost-estimator.ts -/

/-- A record with a `text` field, the estimator's parameter element type. -/
structure TextEntry where
  text : String
deriving Repr, DecidableEq

/-- Result record of `estimateCost` (`interface CostEstimate`). Token
fields are JS numbers and can go negative when the cached count exceeds the
batch count, hence `Int`. -/
structure CostEstimate where
  tier1Tokens : Int
  tier2InputTokens : Int
  tier2OutputTokens : Int
  tier3InputTokens : Int
  tier3OutputTokens : Int
  opusInputTokens : Int
  opusOutputTokens : Int
  haikuCost : ℚ
  opusCost : ℚ
  totalCost : ℚ
  cachedBatches : Int
  totalBatches : Int
deriving Repr, DecidableEq

/-- Pricing and size constants of `cost-estimator.ts`. -/
def HAIKU_INPUT_PRICE : ℚ := 1

/-- Haiku output price per million tokens. -/
def HAIKU_OUTPUT_PRICE : ℚ := 5

/-- Opus input price per million tokens. -/
def OPUS_INPUT_PRICE : ℚ := 15

/-- Opus output price per million tokens. -/
def OPUS_OUTPUT_PRICE : ℚ := 75

/-- Expected weekly summary output size. -/
def WEEKLY_SUMMARY_OUTPUT_TOKENS : Nat := 500

/-- Expected monthly summary output size. -/
def MONTHLY_SUMMARY_OUTPUT_TOKENS : Nat := 800

/-- Expected final report output size. -/
def OPUS_REPORT_OUTPUT_TOKENS : Nat := 4000

/-- Fixed per-call prompt overhead. -/
def SUMMARIZATION_OVERHEAD_TOKENS : Nat := 500

/-- Function `estimateTokensFromChars`: `ceil(chars / 4)`. -/
def estimateTokensFromChars (chars : Nat) : Nat := (chars + 3) / 4

/-- Function `estimateBatchTokens`. -/
def estimateBatchTokens (entries : List TextEntry) : Nat :=
  estimateTokensFromChars (entries.foldl (fun sum e => sum + e.text.length) 0)

/-- Function `calculateCost`: linear pricing per million tokens. -/
def calculateCost (inputTokens outputTokens : Int) (inputPrice outputPrice : ℚ) : ℚ :=
  (inputTokens : ℚ) / 1000000 * inputPrice + (outputTokens : ℚ) / 1000000 * outputPrice

/-- Function `estimateCost` of `cost-estimator.ts`. -/
def estimateCost (tier1Entries : List TextEntry)
    (tier2Batches tier3Batches : List (List TextEntry))
    (cachedWeeklyBatches cachedMonthlyBatches : Nat) : CostEstimate :=
  let tier1Tokens : Int := estimateBatchTokens tier1Entries
  let uncachedTier2 : Int := (tier2Batches.length : Int) - cachedWeeklyBatches
  let tier2InputTokens : Int :=
    if 0 < uncachedTier2 then
      ((tier2Batches.take uncachedTier2.toNat).foldl
        (fun sum batch => sum + estimateBatchTokens batch + SUMMARIZATION_OVERHEAD_TOKENS)
        0 : Nat)
    else 0
  let tier2OutputTokens : Int := uncachedTier2 * WEEKLY_SUMMARY_OUTPUT_TOKENS
  let uncachedTier3 : Int := (tier3Batches.length : Int) - cachedMonthlyBatches
  let tier3InputTokens : Int :=
    if 0 < uncachedTier3 then
      ((tier3Batches.take uncachedTier3.toNat).foldl
        (fun sum batch => sum + estimateBatchTokens batch + SUMMARIZATION_OVERHEAD_TOKENS)
        0 : Nat)
    else 0
  let tier3OutputTokens : Int := uncachedTier3 * MONTHLY_SUMMARY_OUTPUT_TOKENS
  let haikuCost := calculateCost (tier2InputTokens + tier3InputTokens)
    (tier2OutputTokens + tier3OutputTokens) HAIKU_INPUT_PRICE HAIKU_OUTPUT_PRICE
  let summaryTokens : Int :=
    (tier2Batches.length : Int) * WEEKLY_SUMMARY_OUTPUT_TOKENS +
      (tier3Batches.length : Int) * MONTHLY_SUMMARY_OUTPUT_TOKENS
  let opusInputTokens : Int := tier1Tokens + summaryTokens + SUMMARIZATION_OVERHEAD_TOKENS
  let opusOutputTokens : Int := OPUS_REPORT_OUTPUT_TOKENS
  let opusCost := calculateCost opusInputTokens opusOutputTokens
    OPUS_INPUT_PRICE OPUS_OUTPUT_PRICE
  { tier1Tokens := tier1Tokens
    tier2InputTokens := tier2InputTokens
    tier2OutputTokens := tier2OutputTokens
    tier3InputTokens := tier3InputTokens
    tier3OutputTokens := tier3OutputTokens
    opusInputTokens := opusInputTokens
    opusOutputTokens := opusOutputTokens
    haikuCost := haikuCost
    opusCost := opusCost
    totalCost := haikuCost + opusCost
    cachedBatches := (cachedWeeklyBatches : Int) + cachedMonthlyBatches
    totalBatches := (tier2Batches.length : Int) + tier3Batches.length }

/-- Counterexample to claim C7 as stated: with an empty tier-1 list, zero
batches of both tiers and zero cached counts, `totalCost` is not 0 — the
estimator always charges the fixed Opus report call (500 overhead input
tokens and 4000 output tokens). -/
theorem estimateCost_empty_cex : (estimateCost [] [] [] 0 0).totalCost ≠ 0 := by
  unfold estimateCost calculateCost
  norm_num [estimateBatchTokens, estimateTokensFromChars, SUMMARIZATION_OVERHEAD_TOKENS,
    OPUS_REPORT_OUTPUT_TOKENS, OPUS_INPUT_PRICE, OPUS_OUTPUT_PRICE,
    HAIKU_INPUT_PRICE, HAIKU_OUTPUT_PRICE, WEEKLY_SUMMARY_OUTPUT_TOKENS,
    MONTHLY_SUMMARY_OUTPUT_TOKENS]

/-- Claim C7 (corrected): `estimateCost` is purely arithmetic and total on
empty inputs, but the empty call yields `haikuCost = 0` and `totalCost`
equal to the fixed Opus floor: (500 / 1e6) * 15 + (4000 / 1e6) * 75 =
$0.3075 = 123/400, not zero. -/
theorem estimateCost_empty :
    (estimateCost [] [] [] 0 0).haikuCost = 0 ∧
    (estimateCost [] [] [] 0 0).opusCost = 123 / 400 ∧
    (estimateCost [] [] [] 0 0).totalCost = 123 / 400 ∧
    (estimateCost [] [] [] 0 0).opusInputTokens = 500 ∧
    (estimateCost [] [] [] 0 0).opusOutputTokens = 4000 ∧
    (estimateCost [] [] [] 0 0).tier1Tokens = 0 ∧
    (estimateCost [] [] [] 0 0).totalBatches = 0 := by
  unfold estimateCost calculateCost
  norm_num [estimateBatchTokens, estimateTokensFromChars, SUMMARIZATION_OVERHEAD_TOKENS,
    OPUS_REPORT_OUTPUT_TOKENS, OPUS_INPUT_PRICE, OPUS_OUTPUT_PRICE,
    HAIKU_INPUT_PRICE, HAIKU_OUTPUT_PRICE, WEEKLY_SUMMARY_OUTPUT_TOKENS,
    MONTHLY_SUMMARY_OUTPUT_TOKENS]

/-! ### The entry parser `parseJournalXml`

The source drives parsing with regular expressions; they are embedded as
character-level scans over `List Char` with ASCII case folding for the `i`
flag. -/

/-- Case-insensitive literal prefix match (regex `i` flag on an ASCII
pattern given in lowercase). -/
def ciStartsWith : List Char → List Char → Bool
  | [], _ => true
  | _ :: _, [] => false
  | p :: ps, c :: cs => (c.toLower == p) && ciStartsWith ps cs

/-- Match of the entry-opening `<(?:entry|journal_entry)[^>]*>` at the
current position: returns the remainder after the closing `>`. -/
def consumeAttrs : List Char → Option (List Char)
  | [] => none
  | c :: rest => if c = '>' then some rest else consumeAttrs rest

/-- Try the opening alternation at this position. -/
def matchOpenAt (cs : List Char) : Option (List Char) :=
  if ciStartsWith "<entry".data cs then consumeAttrs (cs.drop 6)
  else if ciStartsWith "<journal_entry".data cs then consumeAttrs (cs.drop 14)
  else none

/-- Lazy body capture: scan to the first `</entry>` or `</journal_entry>`,
returning the body characters and the remainder after the closing tag. -/
def findClose : List Char → Option (List Char × List Char)
  | [] => none
  | cs@(c :: rest) =>
    if ciStartsWith "</entry>".data cs then some ([], cs.drop 8)
    else if ciStartsWith "</journal_entry>".data cs then some ([], cs.drop 16)
    else (findClose rest).map (fun p => (c :: p.1, p.2))

/-- The `exec` loop over the entry regex: successive non-overlapping
matches, each as (whole match, body capture). Fuelled structural recursion;
each iteration consumes at least one character. -/
def scanEntriesAux : Nat → List Char → List (List Char × List Char)
  | 0, _ => []
  | _ + 1, [] => []
  | fuel + 1, cs@(_ :: rest) =>
    match matchOpenAt cs with
    | some afterOpen =>
      match findClose afterOpen with
      | some (body, after) => (cs.take (cs.length - after.length), body) ::
          scanEntriesAux fuel after
      | none => scanEntriesAux fuel rest
    | none => scanEntriesAux fuel rest

/-- All entry matches of the input. -/
def scanEntries (cs : List Char) : List (List Char × List Char) :=
  scanEntriesAux (cs.length + 1) cs

/-- Capture of `<tag>([^<]+)</tag>` (case-insensitive, first match):
nonempty run without `<` between the literal tags. -/
def tagCapture (openTag closeTag : List Char) : List Char → Option (List Char)
  | [] => none
  | cs@(_ :: rest) =>
    if ciStartsWith openTag cs then
      let after := cs.drop openTag.length
      let cap := after.takeWhile (fun ch => ch ≠ '<')
      if cap ≠ [] ∧ ciStartsWith closeTag (after.drop cap.length) then some cap
      else tagCapture openTag closeTag rest
    else tagCapture openTag closeTag rest

/-- Opening alternation `<(?:created|created_at|timestamp)>`. -/
def altTagOpen (cs : List Char) : Option (List Char) :=
  if ciStartsWith "<created>".data cs then some (cs.drop 9)
  else if ciStartsWith "<created_at>".data cs then some (cs.drop 12)
  else if ciStartsWith "<timestamp>".data cs then some (cs.drop 11)
  else none

/-- Closing alternation of the timestamp tags. -/
def altTagClose (cs : List Char) : Bool :=
  ciStartsWith "</created>".data cs || ciStartsWith "</created_at>".data cs ||
    ciStartsWith "</timestamp>".data cs

/-- Capture of `<(?:created|created_at|timestamp)>([^<]+)</...>`. -/
def timestampCapture : List Char → Option (List Char)
  | [] => none
  | cs@(_ :: rest) =>
    match altTagOpen cs with
    | some after =>
      let cap := after.takeWhile (fun ch => ch ≠ '<')
      if cap ≠ [] ∧ altTagClose (after.drop cap.length) then some cap
      else timestampCapture rest
    | none => timestampCapture rest

/-- Opening alternation `<(?:text|content|body)>`. -/
def textOpenAt (cs : List Char) : Option (List Char) :=
  if ciStartsWith "<text>".data cs then some (cs.drop 6)
  else if ciStartsWith "<content>".data cs then some (cs.drop 9)
  else if ciStartsWith "<body>".data cs then some (cs.drop 6)
  else none

/-- Closing alternation of the body tags. -/
def textCloseAt (cs : List Char) : Bool :=
  ciStartsWith "</text>".data cs || ciStartsWith "</content>".data cs ||
    ciStartsWith "</body>".data cs

/-- Lazy capture up to the first body-closing tag. -/
def findTextClose : List Char → Option (List Char)
  | [] => none
  | cs@(c :: rest) =>
    if textCloseAt cs then some []
    else (findTextClose rest).map (fun p => c :: p)

/-- Capture of `<(?:text|content|body)>([\s\S]*?)</...>` (possibly empty). -/
def textCapture : List Char → Option (List Char)
  | [] => none
  | cs@(_ :: rest) =>
    match textOpenAt cs with
    | some after =>
      match findTextClose after with
      | some cap => some cap
      | none => textCapture rest
    | none => textCapture rest

/-- Capture of the `date=["']([^"']+)["']` attribute over the whole match. -/
def dateAttrCapture : List Char → Option (List Char)
  | [] => none
  | cs@(_ :: rest) =>
    if ciStartsWith "date=".data cs then
      match cs.drop 5 with
      | q :: afterQ =>
        if q = '"' ∨ q = '\'' then
          let cap := afterQ.takeWhile (fun ch => ch ≠ '"' ∧ ch ≠ '\'')
          if cap ≠ [] ∧ (afterQ.drop cap.length) ≠ [] then some cap
          else dateAttrCapture rest
        else dateAttrCapture rest
      | [] => none
    else dateAttrCapture rest

/-- JS `String.prototype.trim` on a character list (ASCII whitespace). -/
def jsTrim (cs : List Char) : String :=
  String.mk (((cs.dropWhile Char.isWhitespace).reverse.dropWhile Char.isWhitespace).reverse)

/-! ### A model of the ECMA / V8 `new Date(string)` parser, restricted to
the formats the journal pipeline relies on: ISO dates and date-times, the
legacy `MM/DD/YYYY` form and the `D Month YYYY` form. Other inputs give
`null` (an invalid date). -/

/-- Numeric value of a decimal digit character. -/
def digitVal (c : Char) : Nat := c.toNat - 48

/-- Read exactly `n` decimal digits. -/
def readNDigits : Nat → List Char → Option (Nat × List Char)
  | 0, cs => some (0, cs)
  | _ + 1, [] => none
  | n + 1, c :: cs =>
    if c.isDigit then (readNDigits n cs).map (fun p => (digitVal c * 10 ^ n + p.1, p.2))
    else none

/-- Read one or two decimal digits. -/
def read12Digits : List Char → Option (Nat × List Char)
  | [] => none
  | c :: cs =>
    if c.isDigit then
      match cs with
      | d :: cs' => if d.isDigit then some (digitVal c * 10 + digitVal d, cs')
          else some (digitVal c, cs)
      | [] => some (digitVal c, [])
    else none

/-- Gregorian leap year rule. -/
def isLeap (y : Int) : Bool := (y.emod 4 == 0 && y.emod 100 != 0) || y.emod 400 == 0

/-- Days in a month. -/
def daysInMonth (y : Int) (m : Nat) : Nat :=
  if m = 2 then (if isLeap y then 29 else 28)
  else if m = 4 ∨ m = 6 ∨ m = 9 ∨ m = 11 then 30
  else 31

/-- ISO time part `HH:mm(:ss(.sss)?)?Z?` as milliseconds of day. -/
def parseIsoTime (cs : List Char) : Option Int :=
  match readNDigits 2 cs with
  | some (h, ':' :: cs1) =>
    match readNDigits 2 cs1 with
    | some (mi, rest) =>
      if h ≤ 23 ∧ mi ≤ 59 then
        let base : Int := (h * 3600000 + mi * 60000 : Nat)
        match rest with
        | [] => some base
        | ['Z'] => some base
        | ':' :: cs2 =>
          match readNDigits 2 cs2 with
          | some (ss, rest2) =>
            if ss ≤ 59 then
              match rest2 with
              | [] => some (base + (ss * 1000 : Nat))
              | ['Z'] => some (base + (ss * 1000 : Nat))
              | '.' :: cs3 =>
                match readNDigits 3 cs3 with
                | some (ms, rest3) =>
                  match rest3 with
                  | [] => some (base + (ss * 1000 + ms : Nat))
                  | ['Z'] => some (base + (ss * 1000 + ms : Nat))
                  | _ => none
                | none => none
              | _ => none
            else none
          | none => none
        | _ => none
      else none
    | _ => none
  | _ => none

/-- ISO `YYYY-MM-DD` with optional `T<time>`. -/
def parseIsoDate (cs : List Char) : Option Int :=
  match readNDigits 4 cs with
  | some (y, '-' :: cs1) =>
    match readNDigits 2 cs1 with
    | some (m, '-' :: cs2) =>
      match readNDigits 2 cs2 with
      | some (d, rest) =>
        if 1 ≤ m ∧ m ≤ 12 ∧ 1 ≤ d ∧ d ≤ daysInMonth y m then
          match rest with
          | [] => some (daysFromCivil y m d * DAY_MS)
          | 'T' :: timeCs =>
            (parseIsoTime timeCs).map (fun ms => daysFromCivil y m d * DAY_MS + ms)
          | _ => none
        else none
      | _ => none
    | _ => none
  | _ => none

/-- Legacy `MM/DD/YYYY` (one- or two-digit month and day). -/
def parseSlashDate (cs : List Char) : Option Int :=
  match read12Digits cs with
  | some (m, '/' :: cs1) =>
    match read12Digits cs1 with
    | some (d, '/' :: cs2) =>
      match readNDigits 4 cs2 with
      | some (y, []) =>
        if 1 ≤ m ∧ m ≤ 12 ∧ 1 ≤ d ∧ d ≤ daysInMonth y m then
          some (daysFromCivil y m d * DAY_MS)
        else none
      | _ => none
    | _ => none
  | _ => none

/-- Month number of a (case-folded) name: a prefix of at least three
letters of the English month name. -/
def monthOfName (letters : List Char) : Option Nat :=
  if letters.length < 3 then none
  else ((List.range 12).find? (fun i =>
    ciStartsWith (letters.map Char.toLower)
      ((monthLongNames.getD i "").data))).map (fun i => i + 1)

/-- Legacy `D Month YYYY`. -/
def parseMonthNameDate (cs : List Char) : Option Int :=
  match read12Digits cs with
  | some (d, rest) =>
    let afterSp := rest.dropWhile (fun c => c = ' ')
    if rest.length = afterSp.length then none
    else
      let letters := afterSp.takeWhile Char.isAlpha
      match monthOfName letters with
      | some m =>
        let afterMon := afterSp.drop letters.length
        let afterSp2 := afterMon.dropWhile (fun c => c = ' ')
        if afterMon.length = afterSp2.length then none
        else
          match readNDigits 4 afterSp2 with
          | some (y, []) =>
            if 1 ≤ d ∧ d ≤ daysInMonth y m then some (daysFromCivil y m d * DAY_MS)
            else none
          | _ => none
      | none => none
  | none => none

/-- Model of `new Date(dateStr).getTime()` -- `none` is an invalid date. -/
def jsDateParse (s : String) : Option Int :=
  let cs := s.data
  match parseIsoDate cs with
  | some t => some t
  | none =>
    match parseSlashDate cs with
    | some t => some t
    | none => parseMonthNameDate cs

/-- Predicate test at one position. -/
def patAt : List (Char → Bool) → List Char → Bool
  | [], _ => true
  | _ :: _, [] => false
  | p :: ps, c :: cs => p c && patAt ps cs

/-- Unanchored search for a character-class pattern (the fallback format
regexes of `parseDate` are unanchored). -/
def scanPat (pat : List (Char → Bool)) : List Char → Bool
  | [] => patAt pat []
  | cs@(_ :: rest) => patAt pat cs || scanPat pat rest

/-- Pattern `\d{4}-\d{2}-\d{2}`. -/
def matchYMD (cs : List Char) : Bool :=
  scanPat [Char.isDigit, Char.isDigit, Char.isDigit, Char.isDigit, (· = '-'),
    Char.isDigit, Char.isDigit, (· = '-'), Char.isDigit, Char.isDigit] cs

/-- Pattern `\d{2}/\d{2}/\d{4}`. -/
def matchMDY (cs : List Char) : Bool :=
  scanPat [Char.isDigit, Char.isDigit, (· = '/'), Char.isDigit, Char.isDigit, (· = '/'),
    Char.isDigit, Char.isDigit, Char.isDigit, Char.isDigit] cs

/-- Word characters `\w`. -/
def isWordChar (c : Char) : Bool := c.isAlphanum || c = '_'

/-- Pattern `\d{1,2}\s+\w+\s+\d{4}` at one position (greedy runs; the
character classes involved make greedy matching adequate here). -/
def dmonyAt (cs : List Char) : Bool :=
  match read12Digits cs with
  | some (_, rest) =>
    let sp1 := rest.takeWhile (fun c => c.isWhitespace)
    if sp1 = [] then false
    else
      let afterSp1 := rest.drop sp1.length
      let w := afterSp1.takeWhile isWordChar
      if w = [] then false
      else
        let afterW := afterSp1.drop w.length
        let sp2 := afterW.takeWhile (fun c => c.isWhitespace)
        if sp2 = [] then false
        else (readNDigits 4 (afterW.drop sp2.length)).isSome
  | none => false

/-- Unanchored `\d{1,2}\s+\w+\s+\d{4}`. -/
def matchDMonY : List Char → Bool
  | [] => false
  | cs@(_ :: rest) => dmonyAt cs || matchDMonY rest

/-- The format-fallback loop of `parseDate`: for each matching pattern the
source re-parses the same string with `new Date`, which is deterministic,
so the loop can only succeed if the direct parse would have. -/
def parseDateFormats : List (List Char → Bool) → String → Option Int
  | [], _ => none
  | test :: rest, s =>
    if test s.data then
      match jsDateParse s with
      | some t => some t
      | none => parseDateFormats rest s
    else parseDateFormats rest s

/-- Function `parseDate` of `journal-tiers.ts`. -/
def parseDate (dateStr : String) : Option Int :=
  match jsDateParse dateStr with
  | some t => some t
  | none => parseDateFormats [matchYMD, matchMDY, matchDMonY] dateStr

/-- Comparator relation of the final entry sort
(`(a, b) => a.date.getTime() - b.date.getTime()`). -/
def entryDateLe (a b : ParsedEntry) : Prop := a.date ≤ b.date

instance : DecidableRel entryDateLe := fun a b => inferInstanceAs (Decidable (a.date ≤ b.date))

instance : IsTotal ParsedEntry entryDateLe := ⟨fun a b => Int.le_total a.date b.date⟩

instance : IsTrans ParsedEntry entryDateLe := ⟨fun _ _ _ => Int.le_trans⟩

/-- Build one entry from a regex match, or skip it (`none`): resolve the
date by tag, attribute, then timestamp-tag priority; take the body capture
or the whole block as text; drop entries with no resolvable date or empty
text. -/
def entryOfMatch (m : List Char × List Char) : Option ParsedEntry :=
  let entryContent := m.2
  let d1 := (tagCapture "<date>".data "</date>".data entryContent).bind
    (fun cap => parseDate (jsTrim cap))
  let d2 := match d1 with
    | some t => some t
    | none => (dateAttrCapture m.1).bind (fun cap => parseDate (jsTrim cap))
  let d3 := match d2 with
    | some t => some t
    | none => (timestampCapture entryContent).bind (fun cap => parseDate (jsTrim cap))
  match d3 with
  | none => none
  | some date =>
    let text := match textCapture entryContent with
      | some cap => jsTrim cap
      | none => jsTrim entryContent
    if text = "" then none
    else some
      { date := date
        text := text
        journal := (tagCapture "<journal>".data "</journal>".data entryContent).map
          (fun cap => jsTrim cap)
        location := (tagCapture "<location>".data "</location>".data entryContent).map
          (fun cap => jsTrim cap) }

/-- Function `parseJournalXml` of `journal-tiers.ts`: match entry blocks,
build entries (skipping malformed ones), and stably sort by date
ascending. -/
def parseJournalXml (xml : String) : List ParsedEntry :=
  ((scanEntries xml.data).filterMap entryOfMatch).insertionSort entryDateLe

/-- Claim C8 (corrected): the output of `parseJournalXml` is sorted
NONDECREASINGLY by date: the comparator `a.date - b.date` admits ties, and
two entries with equal dates are both kept, so the order is not strict in
general. -/
theorem parseJournalXml_sorted (xml : String) :
    List.Sorted entryDateLe (parseJournalXml xml) :=
  List.sorted_insertionSort entryDateLe _

/-- Counterexample to claim C8 as stated: an input with two entries dated
the same day parses to two entries with equal timestamps, so the output is
not strictly ascending. -/
theorem parseJournalXml_strict_cex :
    ¬ List.Pairwise (fun a b : ParsedEntry => a.date < b.date)
      (parseJournalXml ("<entry><date>2024-01-05</date><text>a</text></entry>" ++
        "<entry><date>2024-01-05</date><text>b</text></entry>")) ∧
    (parseJournalXml ("<entry><date>2024-01-05</date><text>a</text></entry>" ++
      "<entry><date>2024-01-05</date><text>b</text></entry>")).length = 2 := by
  decide

/-! ### Report assembly: the legacy non-tiered paths

Two modules define a legacy `getReport`: the current Opus-based
`claude-prompter` (which also holds `getReportWithTiers`) and an older
Sonnet-based variant. Only the Sonnet variant counts tokens and truncates;
the pure truncation policy and the prompt assembly are embedded here. -/

/-- A role-tagged chat message of the model-client collaborator. -/
structure ChatMessage where
  role : String
  content : String
deriving Repr, DecidableEq

/-- Context ceiling of the Sonnet-based legacy module. -/
def MAX_CONTEXT_TOKENS : Nat := 200000

/-- Response reserve of the Sonnet-based legacy module. -/
def RESPONSE_BUFFER_TOKENS : Nat := 30000

/-- Journal token budget: ceiling minus reserve. -/
def MAX_JOURNAL_TOKENS : Nat := MAX_CONTEXT_TOKENS - RESPONSE_BUFFER_TOKENS

/-- The truncation step of the Sonnet-based legacy `getReport`: when the
counted tokens exceed the budget, drop a proportional prefix
(`floor(length * (1 - MAX / tokens))` — the double-precision product is
modelled exactly in `ℚ`) and prepend the visible marker; otherwise pass the
journal through unchanged. -/
def processedJournal (journalXml : String) (inputTokens : Nat) : String :=
  if MAX_JOURNAL_TOKENS < inputTokens then
    let truncFrac : ℚ := 1 - (MAX_JOURNAL_TOKENS : ℚ) / inputTokens
    let truncationIndex : Nat := (Rat.floor ((journalXml.length : ℚ) * truncFrac)).toNat
    "...older entries truncated...\n\n" ++ String.mk (journalXml.data.drop truncationIndex)
  else journalXml

/-- Function `buildCustomTopicsPrompt` of `claude-prompter.ts`. -/
def buildCustomTopicsPrompt (topics : List String) (customTopicsOnly : Bool) : String :=
  if topics.length = 0 then ""
  else
    let topicSections := joinSep "\n\n" (topics.mapIdx (fun i topic =>
      "<section heading=\"Custom Topic " ++ natStr (i + 1) ++ ": " ++ topic ++
        "\">\nAddress this specific question or topic based on my journal entries. " ++
        "Provide thoughtful analysis and actionable advice.\n</section>"))
    if customTopicsOnly then
      "\n\n<custom_topics_only>\nIMPORTANT: The user has requested ONLY the following " ++
        natStr topics.length ++
        " custom topic(s). Do NOT include the standard report sections (Executive " ++
        "Summary, General Insights, etc.). ONLY address the custom topics below.\n\n" ++
        topicSections ++
        "\n\nRemember: ONLY output sections for the custom topics above. Do not " ++
        "include any standard report sections.\n</custom_topics_only>"
    else
      "\n\n<custom_topics>\nIMPORTANT: The user has requested " ++ natStr topics.length ++
        " custom topic(s) below. You MUST address ALL of them - do not skip any.\n\n" ++
        "Add these as separate sections BEFORE the \"Context for JournaLens\" " ++
        "section:\n\n" ++ topicSections ++
        "\n\nRemember: Every custom topic above MUST have its own dedicated section " ++
        "in your response. These are specifically requested by the user and are a " ++
        "priority.\n</custom_topics>"

/-- Message list the current (Opus-based) legacy `getReport` sends: the
journal embedded VERBATIM, the report prompt with custom topics, and the
assistant title prefill. No token counting and no truncation happen on
this path. -/
def getReportMessages (journalXml formattedDate : String) (customTopics : List String)
    (customTopicsOnly : Bool) (reportPrompt : String) : List ChatMessage :=
  let assistantPrefill := "# JournaLens Advice for " ++ formattedDate
  let customTopicsPrompt := buildCustomTopicsPrompt customTopics customTopicsOnly
  let basePrompt := if customTopicsOnly ∧ customTopics.length ≠ 0 then "" else reportPrompt
  [⟨"user", "<journal>\n" ++ journalXml ++ "\n</journal>"⟩,
    ⟨"user", basePrompt ++ customTopicsPrompt⟩,
    ⟨"assistant", assistantPrefill⟩]

/-- Claim C9 (corrected): the token-budget truncation policy lives only in
the Sonnet-based legacy module: there, a journal whose counted tokens are
within the budget passes through unchanged, and one over the budget becomes
the visible marker followed by a suffix of the original (a prefix of the
oldest content is dropped). The current claude-prompter legacy `getReport`
embeds the journal verbatim in its first message, with no truncation on any
input. -/
theorem legacyReport_truncation (journalXml : String) (inputTokens : Nat) :
    (inputTokens ≤ MAX_JOURNAL_TOKENS → processedJournal journalXml inputTokens = journalXml) ∧
    (MAX_JOURNAL_TOKENS < inputTokens →
      ∃ k, k ≤ journalXml.length ∧
        processedJournal journalXml inputTokens =
          "...older entries truncated...\n\n" ++ String.mk (journalXml.data.drop k)) ∧
    (∀ (fd : String) (topics : List String) (cOnly : Bool) (rp : String),
      (getReportMessages journalXml fd topics cOnly rp).headD ⟨"", ""⟩ =
        ⟨"user", "<journal>\n" ++ journalXml ++ "\n</journal>"⟩) := by
  refine ⟨?_, ?_, ?_⟩
  · intro h
    unfold processedJournal
    rw [if_neg (by omega)]
  · intro h
    unfold processedJournal
    rw [if_pos h]
    refine ⟨(Rat.floor ((journalXml.length : ℚ) *
      (1 - (MAX_JOURNAL_TOKENS : ℚ) / inputTokens))).toNat, ?_, rfl⟩
    have hfrac : (1 - (MAX_JOURNAL_TOKENS : ℚ) / inputTokens) ≤ 1 := by
      have hpos : (0 : ℚ) ≤ (MAX_JOURNAL_TOKENS : ℚ) / inputTokens := by positivity
      linarith
    have hmul : (journalXml.length : ℚ) * (1 - (MAX_JOURNAL_TOKENS : ℚ) / inputTokens) ≤
        (journalXml.length : ℚ) := by
      calc (journalXml.length : ℚ) * (1 - (MAX_JOURNAL_TOKENS : ℚ) / inputTokens)
          ≤ (journalXml.length : ℚ) * 1 := by
            apply mul_le_mul_of_nonneg_left hfrac
            positivity
        _ = (journalXml.length : ℚ) := by ring
    have hfloor : Rat.floor ((journalXml.length : ℚ) *
        (1 - (MAX_JOURNAL_TOKENS : ℚ) / inputTokens)) ≤ (journalXml.length : Int) := by
      by_contra hlt
      push_neg at hlt
      have h2 : ((journalXml.length : Int) + 1 : ℤ) ≤ Rat.floor ((journalXml.length : ℚ) *
          (1 - (MAX_JOURNAL_TOKENS : ℚ) / inputTokens)) := hlt
      have h3 := Rat.le_floor.mp h2
      push_cast at h3
      linarith [hmul]
    omega
  · intro fd topics cOnly rp
    rfl

/-- Witness for claim C9: within budget the journal passes through; over
budget the output is the marker plus a suffix; the claude-prompter legacy
message embeds the journal verbatim. -/
theorem legacyReport_truncation_witness :
    processedJournal "abc" 5 = "abc" ∧
    (∃ k, k ≤ ("abcd" : String).length ∧
      processedJournal "abcd" 170001 =
        "...older entries truncated...\n\n" ++ String.mk ("abcd".data.drop k)) ∧
    (getReportMessages "abc" "Jan 1" [] false "rep").headD ⟨"", ""⟩ =
      ⟨"user", "<journal>\nabc\n</journal>"⟩ :=
  ⟨(legacyReport_truncation "abc" 5).1 (by decide),
    (legacyReport_truncation "abcd" 170001).2.1 (by decide),
    (legacyReport_truncation "abc" 0).2.2 "Jan 1" [] false "rep"⟩

/-- Counterexample to claim C9 as stated: on the current legacy path (the
claude-prompter `getReport`) an over-budget journal — 680004 characters,
estimated 170001 tokens against the 170000 budget — is sent verbatim: the
first message embeds the raw journal, which does not start with the
truncation marker. -/
theorem legacyReport_no_truncation_cex :
    MAX_JOURNAL_TOKENS <
      estimateTokensFromChars (String.mk (List.replicate 680004 'a')).length ∧
    (getReportMessages (String.mk (List.replicate 680004 'a')) "d" [] false "rep").headD
        ⟨"", ""⟩ =
      ⟨"user", "<journal>\n" ++ String.mk (List.replicate 680004 'a') ++ "\n</journal>"⟩ ∧
    ¬ ("...older entries truncated...".data <+:
        (String.mk (List.replicate 680004 'a')).data) := by
  refine ⟨?_, rfl, ?_⟩
  · have hlen : (String.mk (List.replicate 680004 'a')).length = 680004 := by
      show (List.replicate 680004 'a').length = 680004
      rw [List.length_replicate]
    rw [hlen]
    unfold estimateTokensFromChars MAX_JOURNAL_TOKENS MAX_CONTEXT_TOKENS
      RESPONSE_BUFFER_TOKENS
    norm_num
  · rintro ⟨t, ht⟩
    have hmark : ("...older entries truncated...".data) =
        '.' :: "..older entries truncated...".data := rfl
    have hrep : (String.mk (List.replicate 680004 'a')).data =
        'a' :: List.replicate 680003 'a' := by
      show List.replicate 680004 'a' = 'a' :: List.replicate 680003 'a'
      rw [show (680004 : Nat) = 680003 + 1 from rfl, List.replicate_succ]
    rw [hmark, hrep, List.cons_append] at ht
    have := (List.cons.injEq _ _ _ _).mp ht
    exact absurd this.1 (by decide)

end JournalLM
